import Mathlib

/-!
Verification development for the static firewall-policy reachability
analyzer (fortigate-rule-parser).  The Go source is shallowly embedded:

* Go `net.IP` byte slices become `GoIP` (a byte length plus the big-endian
  numeric value of the bytes); the Go `nil` slice is `len = 0`.
* Go `net.IPNet` becomes `GoIPNet` (an ip and a mask, each a byte slice).
* The relevant `net` standard-library methods used by the source
  (`To4`, `To16`, `Mask`, `Contains`) are embedded faithfully from their
  Go implementations, since the analyzer's semantics depends on them.
* Functions that can panic at runtime (indexing a `nil` result of `To16`)
  return `Option`, with `none` modelling the panic.
* Go `int` is `Int`, Go `uint64` arithmetic is `Nat` arithmetic mod `2^64`.
* Go string case folding (`strings.EqualFold`, `ToUpper`, `ToLower`) is
  modelled for ASCII strings, which covers every reserved name involved.
-/

namespace STA

/-- A Go `net.IP` byte slice: `len` bytes holding the big-endian value
`val` (so well-formed values satisfy `val < 2^(8*len)`).  The Go `nil`
slice is represented by `len = 0`. -/
structure GoIP where
  len : Nat
  val : Nat
  deriving DecidableEq

/-- Well-formedness of a byte slice: the value fits in the bytes. -/
def GoIP.wf (ip : GoIP) : Prop := ip.val < 2 ^ (8 * ip.len)

/-- The IPv4-in-IPv6 prefix `::ffff:0:0` as the high 96 bits of a 16-byte
value: a 16-byte ip is v4-mapped iff its value shifted right 32 bits is
`0xffff`. -/
def v4inv6 : Nat := 0xffff * 2 ^ 32

/-- Embeds Go `net.IP.To4`: a 4-byte ip is returned as is; a 16-byte ip is
returned as its low 4 bytes when v4-mapped; anything else yields `nil`. -/
def to4 (ip : GoIP) : Option GoIP :=
  if ip.len = 4 then some ip
  else if ip.len = 16 ∧ ip.val / 2 ^ 32 = 0xffff then some ⟨4, ip.val % 2 ^ 32⟩
  else none

/-- Embeds Go `net.IP.To16`: a 4-byte ip is widened with the v4-mapped
prefix; a 16-byte ip is returned as is; anything else yields `nil`. -/
def to16 (ip : GoIP) : Option GoIP :=
  if ip.len = 4 then some ⟨16, v4inv6 + ip.val⟩
  else if ip.len = 16 then some ip
  else none

/-- Embeds `bytesCompare` (engine): both arguments are converted with
`To16` and the 16 bytes are compared lexicographically, which on the
big-endian values is numeric comparison.  Go indexes the `To16` results
without a `nil` check, so a failing conversion is a runtime panic,
modelled by `none`. -/
def bytesCompare (a b : GoIP) : Option Ordering :=
  match to16 a, to16 b with
  | some a16, some b16 => some (compare a16.val b16.val)
  | _, _ => none

/-- Embeds Go `net.IP.Mask`: the two rewriting steps for mixed 4/16-byte
arguments, then byte-wise AND; mismatched lengths yield `nil`. -/
def goMask (ip mask : GoIP) : Option GoIP :=
  let step1 : GoIP × GoIP :=
    if mask.len = 16 ∧ ip.len = 4 ∧ mask.val / 2 ^ 32 = 2 ^ 96 - 1 then
      (ip, ⟨4, mask.val % 2 ^ 32⟩)
    else (ip, mask)
  let step2 : GoIP × GoIP :=
    if step1.2.len = 4 ∧ step1.1.len = 16 ∧ step1.1.val / 2 ^ 32 = 0xffff then
      (⟨4, step1.1.val % 2 ^ 32⟩, step1.2)
    else step1
  if step2.1.len = step2.2.len then some ⟨step2.1.len, step2.1.val &&& step2.2.val⟩
  else none

/-- A Go `net.IPNet`.  A `nil` mask is `mask.len = 0`. -/
structure GoIPNet where
  ip : GoIP
  mask : GoIP
  deriving DecidableEq

/-- Embeds the unexported Go `net.networkNumberAndMask`: normalises the
network's ip with `To4` and aligns a 16-byte mask with a 4-byte network;
`none` models the `nil, nil` return for malformed networks. -/
def networkNumberAndMask (n : GoIPNet) : Option (GoIP × GoIP) :=
  let nn? : Option GoIP :=
    match to4 n.ip with
    | some x => some x
    | none => if n.ip.len = 16 then some n.ip else none
  match nn? with
  | none => none
  | some nn =>
    if n.mask.len = 4 then
      if nn.len = 4 then some (nn, n.mask) else none
    else if n.mask.len = 16 then
      if nn.len = 4 then some (nn, ⟨4, n.mask.val % 2 ^ 32⟩) else some (nn, n.mask)
    else none

/-- Embeds Go `net.IPNet.Contains`: the queried ip is normalised with
`To4` when possible, lengths must agree, and the masked bytes must be
equal.  A malformed network compares against a zero-length `nil` pair,
exactly as the Go code does. -/
def goContains (n : GoIPNet) (ip : GoIP) : Bool :=
  let ip' := (to4 ip).getD ip
  let nnm := (networkNumberAndMask n).getD (⟨0, 0⟩, ⟨0, 0⟩)
  if ip'.len = nnm.1.len then
    decide ((nnm.1.val &&& nnm.2.val) = (ip'.val &&& nnm.2.val))
  else false

/-- Embeds `Inc` (utils/ip.go): increment the byte slice right-to-left
with carry; overflowing every byte wraps to all zeros. -/
def Inc (ip : GoIP) : GoIP := ⟨ip.len, (ip.val + 1) % 2 ^ (8 * ip.len)⟩

/-- Embeds `Mask.Size` from Go `net`: the number of leading ones and
total bits for a canonical ones-then-zeros mask, and `(0, 0)` otherwise. -/
def maskSize (m : GoIP) : Nat × Nat :=
  let bits := 8 * m.len
  match (List.range (bits + 1)).find? (fun k => m.val = (2 ^ k - 1) * 2 ^ (bits - k)) with
  | some k => (k, bits)
  | none => (0, 0)

/-- Embeds `CIDRSize` (utils/ip.go): `1 << (bits - ones)` computed in
Go `uint64` arithmetic, where a shift by 64 or more yields 0 — hence the
result is `2^(bits-ones) mod 2^64`. -/
def CIDRSize (cidr : GoIPNet) : Nat :=
  let s := maskSize cidr.mask
  (1 <<< (s.2 - s.1)) % 2 ^ 64

/-- Embeds `cidrRange` (engine): `(first, last)` of a network in 16-byte
form.  The outer `none` models the runtime panic that the Go code hits
when `ip.Mask(mask)` returns `nil` and the `end` slice is then indexed;
the inner `none`s model the `nil, nil` return. -/
def cidrRange (cidr : GoIPNet) : Option (Option GoIP × Option GoIP) :=
  match to16 cidr.ip with
  | none => some (none, none)
  | some ip16 =>
    if cidr.mask.len = 0 then some (none, none)
    else
      match (goMask ip16 cidr.mask).bind to16 with
      | none => none
      | some start =>
        if cidr.mask.len = 4 then
          some (some start, some ⟨16, start.val ||| ((2 ^ 32 - 1) ^^^ cidr.mask.val)⟩)
        else
          some (some start, some ⟨16, start.val ||| ((2 ^ 128 - 1) ^^^ cidr.mask.val)⟩)

/-- ASCII lower-casing of a character, modelling the ASCII fragment of
Go's unicode case folding. -/
def asciiLowerChar (c : Char) : Char :=
  if 'A' ≤ c ∧ c ≤ 'Z' then Char.ofNat (c.toNat + 32) else c

/-- ASCII lower-casing of a string (models `strings.ToLower` on ASCII). -/
def asciiLower (s : String) : String := ⟨s.data.map asciiLowerChar⟩

/-- ASCII upper-casing of a character. -/
def asciiUpperChar (c : Char) : Char :=
  if 'a' ≤ c ∧ c ≤ 'z' then Char.ofNat (c.toNat - 32) else c

/-- ASCII upper-casing of a string (models `strings.ToUpper` on ASCII). -/
def asciiUpper (s : String) : String := ⟨s.data.map asciiUpperChar⟩

/-- Models `strings.EqualFold` on ASCII strings. -/
def eqFold (a b : String) : Bool := asciiLower a = asciiLower b

/-- Character-list splitter underlying `splitOnChar`. -/
def splitCharAux (sep : Char) : List Char → List Char → List (List Char)
  | [], acc => [acc.reverse]
  | c :: rest, acc =>
    if c = sep then acc.reverse :: splitCharAux sep rest []
    else splitCharAux sep rest (c :: acc)

/-- Models `strings.Split` for a single-character separator (the source
only splits on `"_"` and `"-"`). -/
def splitOnChar (sep : Char) (s : String) : List String :=
  (splitCharAux sep s.data []).map (fun cs => ⟨cs⟩)

/-- Models `strconv.Atoi`: optional sign, decimal digits, 64-bit range. -/
def goAtoi (s : String) : Option Int :=
  match s.data with
  | [] => none
  | c :: rest =>
    let signDigits : Bool × List Char :=
      if c = '-' then (true, rest) else if c = '+' then (false, rest) else (false, c :: rest)
    if signDigits.2 = [] then none
    else if signDigits.2.all (fun d => '0' ≤ d ∧ d ≤ '9') then
      let n : Nat := signDigits.2.foldl (fun acc d => acc * 10 + (d.toNat - 48)) 0
      let v : Int := if signDigits.1 then -(n : Int) else (n : Int)
      if -(2 ^ 63) ≤ v ∧ v ≤ 2 ^ 63 - 1 then some v else none
    else none

/-! ## The policy object model (internal/model/models.go)

Go `Protocol` is a string type; Go pointers that are only `nil`-checked
(`IPNet`, `StartIP`, `EndIP`) become `Option`.  The evaluator never reads
`RawSrcAddrNames` etc. so `Policy` keeps them as plain string lists. -/

/-- Embeds `model.AddressObject`. -/
structure AddressObject where
  name : String
  type : String
  ipnet : Option GoIPNet
  startIP : Option GoIP
  endIP : Option GoIP
  fqdn : String
  deriving DecidableEq

/-- Embeds `model.ServiceObject` (ports are Go `int`). -/
structure ServiceObject where
  name : String
  protocol : String
  startPort : Int
  endPort : Int
  deriving DecidableEq

/-- Embeds `model.Policy`. -/
structure Policy where
  id : String
  priority : Int
  name : String
  srcAddrs : List AddressObject
  dstAddrs : List AddressObject
  services : List ServiceObject
  rawSrcAddrNames : List String
  rawDstAddrNames : List String
  rawSvcNames : List String
  action : String
  enabled : Bool
  schedule : String
  deriving DecidableEq

/-- Embeds `model.Task` (the label fields pass through to results). -/
structure Task where
  srcIP : GoIP
  srcCIDR : String
  dstIP : GoIP
  dstCIDR : String
  port : Int
  proto : String
  serviceLabel : String
  deriving DecidableEq

/-- Embeds `model.SimulationResult` restricted to the fields the
evaluator itself writes (`Evaluate` copies the task ips through
`String()`; we keep the ip values themselves, which carries the same
information).  The remaining label fields are filled in by the worker,
outside the evaluator. -/
structure SimulationResult where
  decision : String
  matchedPolicyID : String
  matchedPolicyAction : String
  srcIP : GoIP
  dstIP : GoIP
  reason : String
  flowCount : Nat
  deriving DecidableEq

/-! ## The evaluator (internal/engine, src/unnamed/part_003)

`buildPrecheckIndex` populates `precheckIndex` and `broadPolicies`, but
`Precheck` discards its lookup (`_ = e.precheckIndex[key]`) and iterates
`e.Policies` directly, so the index is behaviourally inert and the
embedded `Evaluator` holds only the sorted policy list. -/

/-- Embeds `engine.Evaluator` (only the behaviourally relevant state). -/
structure Evaluator where
  policies : List Policy
  deriving DecidableEq

/-- Embeds `engine.NewEvaluator`'s `sort.SliceStable(policies, ...)` with
`less i j = Priority i < Priority j`.  A stable sort's output is uniquely
determined by the comparator, and `List.mergeSort` with the
corresponding total preorder `≤` computes exactly that output. -/
def NewEvaluator (policies : List Policy) : Evaluator :=
  ⟨policies.mergeSort (fun a b => a.priority ≤ b.priority)⟩

/-- Embeds `Evaluator.matchAddr`: `none` models the runtime panic that
`bytesCompare` hits on an ip that `To16` cannot convert. -/
def matchAddr : List AddressObject → GoIP → Option Bool
  | [], _ => some false
  | addr :: rest, ip =>
    if addr.name = "all" then some true
    else if addr.type = "ipmask" then
      match addr.ipnet with
      | some n => if goContains n ip then some true else matchAddr rest ip
      | none => matchAddr rest ip
    else if addr.type = "iprange" then
      match addr.startIP, addr.endIP with
      | some s, some e =>
        match bytesCompare ip s with
        | none => none
        | some c1 =>
          if c1 = .lt then matchAddr rest ip
          else
            match bytesCompare ip e with
            | none => none
            | some c2 => if c2 = .gt then matchAddr rest ip else some true
      | _, _ => matchAddr rest ip
    else matchAddr rest ip

/-- Embeds `Evaluator.matchSvc`. -/
def matchSvc : List ServiceObject → Task → Bool
  | [], _ => false
  | svc :: rest, task =>
    if svc.name = "all" then true
    else if svc.protocol = task.proto ∧ svc.startPort ≤ task.port ∧ task.port ≤ svc.endPort then
      true
    else matchSvc rest task

/-- Embeds `Evaluator.matches` with Go's `&&` short-circuiting. -/
def matchesPolicy (policy : Policy) (task : Task) : Option Bool :=
  match matchAddr policy.srcAddrs task.srcIP with
  | none => none
  | some false => some false
  | some true =>
    match matchAddr policy.dstAddrs task.dstIP with
    | none => none
    | some false => some false
    | some true => some (matchSvc policy.services task)

/-- The result built on a policy match in `Evaluator.Evaluate`. -/
def matchResult (policy : Policy) (task : Task) : SimulationResult :=
  { decision := if policy.action = "accept" then "ALLOW" else "DENY"
    matchedPolicyID := policy.id
    matchedPolicyAction := policy.action
    srcIP := task.srcIP
    dstIP := task.dstIP
    reason := if policy.action = "accept" then "MATCH_POLICY_ACCEPT" else "MATCH_POLICY_DENY"
    flowCount := 1 }

/-- The implicit-deny result of `Evaluator.Evaluate` (unset Go string
fields are the zero value `""`). -/
def implicitDenyResult (task : Task) : SimulationResult :=
  { decision := "DENY"
    matchedPolicyID := ""
    matchedPolicyAction := ""
    srcIP := task.srcIP
    dstIP := task.dstIP
    reason := "IMPLICIT_DENY"
    flowCount := 1 }

/-- The policy loop of `Evaluator.Evaluate`. -/
def evalLoop : List Policy → Task → Option SimulationResult
  | [], task => some (implicitDenyResult task)
  | policy :: rest, task =>
    if policy.enabled then
      match matchesPolicy policy task with
      | none => none
      | some true => some (matchResult policy task)
      | some false => evalLoop rest task
    else evalLoop rest task

/-- Embeds `Evaluator.Evaluate`; `none` models a runtime panic. -/
def Evaluate (e : Evaluator) (task : Task) : Option SimulationResult :=
  evalLoop e.policies task

/-! ## The CIDR-relation precheck (engine) -/

/-- Embeds `engine.cidrRelation`. -/
inductive CidrRelation where
  | relNone
  | relPartial
  | relFull
  deriving DecidableEq

/-- Embeds `engine.PrecheckStatus`. -/
inductive PrecheckStatus where
  | skip
  | allowAll
  | expand
  deriving DecidableEq

/-- Embeds `engine.sameIPFamily`: both or neither convert with `To4`. -/
def sameIPFamily (a b : GoIP) : Bool := (to4 a).isSome = (to4 b).isSome

/-- Embeds `engine.rangeRelation` with Go's short-circuit `||`/`&&`;
`none` models a `bytesCompare` panic. -/
def rangeRelation (rangeStart rangeEnd cidrStart cidrEnd : GoIP) : Option CidrRelation :=
  match bytesCompare rangeEnd cidrStart with
  | none => none
  | some c1 =>
    if c1 = .lt then some .relNone
    else
      match bytesCompare rangeStart cidrEnd with
      | none => none
      | some c2 =>
        if c2 = .gt then some .relNone
        else
          match bytesCompare rangeStart cidrStart with
          | none => none
          | some c3 =>
            if c3 = .gt then some .relPartial
            else
              match bytesCompare rangeEnd cidrEnd with
              | none => none
              | some c4 => if c4 = .lt then some .relPartial else some .relFull

/-- Embeds `engine.addressRange`: the inclusive 16-byte range of an
address object, with the inner `none`s for the `nil, nil` returns and the
outer `none` for a `cidrRange` panic. -/
def addressRange (addr : AddressObject) : Option (Option GoIP × Option GoIP) :=
  if addr.type = "ipmask" then
    match addr.ipnet with
    | none => some (none, none)
    | some n => cidrRange n
  else if addr.type = "iprange" then
    match addr.startIP, addr.endIP with
    | some s, some e => some (to16 s, to16 e)
    | _, _ => some (none, none)
  else some (none, none)

/-- The per-address loop of `engine.addrRelation`, carrying Go's
`partialFound` accumulator. -/
def addrRelationLoop (cidrStart cidrEnd : GoIP) :
    List AddressObject → Bool → Option CidrRelation
  | [], partialFound => some (if partialFound then .relPartial else .relNone)
  | addr :: rest, partialFound =>
    if addr.name = "all" then some .relFull
    else
      match addressRange addr with
      | none => none
      | some (addrStart?, addrEnd?) =>
        match addrStart?, addrEnd? with
        | some addrStart, some addrEnd =>
          if sameIPFamily addrStart cidrStart then
            match rangeRelation addrStart addrEnd cidrStart cidrEnd with
            | none => none
            | some .relFull => some .relFull
            | some .relPartial => addrRelationLoop cidrStart cidrEnd rest true
            | some .relNone => addrRelationLoop cidrStart cidrEnd rest partialFound
          else addrRelationLoop cidrStart cidrEnd rest partialFound
        | _, _ => addrRelationLoop cidrStart cidrEnd rest partialFound

/-- Embeds `engine.addrRelation` (the `cidr == nil` guard is the `none`
case of the optional argument). -/
def addrRelation (addrs : List AddressObject) (cidr : Option GoIPNet) : Option CidrRelation :=
  match cidr with
  | none => some .relNone
  | some c =>
    if addrs = [] then some .relNone
    else
      match cidrRange c with
      | none => none
      | some (cidrStart?, cidrEnd?) =>
        match cidrStart?, cidrEnd? with
        | some cidrStart, some cidrEnd => addrRelationLoop cidrStart cidrEnd addrs false
        | _, _ => some .relNone

/-- The inline service check of `Evaluator.Precheck` (`matchesSvc`). -/
def precheckSvcMatch (svcs : List ServiceObject) (port : Int) (proto : String) : Bool :=
  svcs.any (fun svc =>
    svc.name = "all" ∨ (svc.protocol = proto ∧ svc.startPort ≤ port ∧ port ≤ svc.endPort))

/-- The policy loop of `Evaluator.Precheck`. -/
def precheckLoop (srcCIDR dstCIDR : GoIPNet) (port : Int) (proto : String) :
    List Policy → Option (PrecheckStatus × Option Policy × String)
  | [] => some (.skip, none, "PRECHECK_IMPLICIT_DENY")
  | policy :: rest =>
    if policy.enabled then
      if precheckSvcMatch policy.services port proto then
        match addrRelation policy.srcAddrs (some srcCIDR) with
        | none => none
        | some .relNone => precheckLoop srcCIDR dstCIDR port proto rest
        | some srcRel =>
          match addrRelation policy.dstAddrs (some dstCIDR) with
          | none => none
          | some .relNone => precheckLoop srcCIDR dstCIDR port proto rest
          | some dstRel =>
            if srcRel ≠ .relFull ∨ dstRel ≠ .relFull then
              some (.expand, some policy, "PRECHECK_PARTIAL")
            else if policy.action = "accept" then
              some (.allowAll, some policy, "PRECHECK_ALLOW_ALL")
            else some (.skip, some policy, "PRECHECK_DENY")
      else precheckLoop srcCIDR dstCIDR port proto rest
    else precheckLoop srcCIDR dstCIDR port proto rest

/-- Embeds `Evaluator.Precheck`; `nil` CIDR arguments are `none`. -/
def Precheck (e : Evaluator) (srcCIDR dstCIDR : Option GoIPNet) (port : Int)
    (proto : String) : Option (PrecheckStatus × Option Policy × String) :=
  match srcCIDR, dstCIDR with
  | some src, some dst => precheckLoop src dst port proto e.policies
  | _, _ => some (.expand, none, "PRECHECK_INVALID_CIDR")

/-! ## Lemmas about the evaluation loop -/

/-- The comparator used by `NewEvaluator`. -/
def priorityLe (a b : Policy) : Bool := a.priority ≤ b.priority

theorem priorityLe_trans (a b c : Policy) (hab : priorityLe a b = true)
    (hbc : priorityLe b c = true) : priorityLe a c = true := by
  simp only [priorityLe, decide_eq_true_eq] at *
  omega

theorem priorityLe_total (a b : Policy) : (priorityLe a b || priorityLe b a) = true := by
  simp only [priorityLe, Bool.or_eq_true, decide_eq_true_eq]
  omega

theorem newEvaluator_eq_mergeSort (policies : List Policy) :
    (NewEvaluator policies).policies = policies.mergeSort priorityLe := rfl

theorem pairwise_of_forall_mem {α : Type} (R : α → α → Prop) (l : List α)
    (h : ∀ a ∈ l, ∀ b ∈ l, R a b) : l.Pairwise R := by
  induction l with
  | nil => exact List.Pairwise.nil
  | cons x xs ih =>
    refine List.Pairwise.cons (fun b hb => h x (by simp) b (by simp [hb])) ?_
    exact ih (fun a ha b hb => h a (by simp [ha]) b (by simp [hb]))

/-- Stability of the constructor's sort: for each priority value, the
subsequence of policies having that priority is unchanged. -/
theorem newEvaluator_filter_priority (policies : List Policy) (pr : Int) :
    (NewEvaluator policies).policies.filter (fun p => p.priority = pr) =
      policies.filter (fun p => p.priority = pr) := by
  set pred : Policy → Bool := fun p => p.priority = pr with hpred
  set c : List Policy := policies.filter pred with hc
  have hmemc : ∀ a ∈ c, pred a = true := fun a ha => List.of_mem_filter ha
  have hpair : c.Pairwise (fun a b => priorityLe a b = true) := by
    refine pairwise_of_forall_mem _ _ (fun a ha b hb => ?_)
    have ha' := hmemc a ha
    have hb' := hmemc b hb
    simp only [hpred, decide_eq_true_eq] at ha' hb'
    simp [priorityLe, ha', hb']
  have hsub : c.Sublist (policies.mergeSort priorityLe) :=
    List.sublist_mergeSort priorityLe_trans priorityLe_total hpair (List.filter_sublist policies)
  have hcfilter : c.filter pred = c := by
    apply List.filter_eq_self.mpr hmemc
  have hsub2 : c.Sublist ((policies.mergeSort priorityLe).filter pred) := by
    have := List.Sublist.filter pred hsub
    rwa [hcfilter] at this
  have hperm : ((policies.mergeSort priorityLe).filter pred).Perm c :=
    List.Perm.filter pred (List.mergeSort_perm policies priorityLe)
  have hlen : c.length = ((policies.mergeSort priorityLe).filter pred).length :=
    (List.Perm.length_eq hperm).symm
  have := List.Sublist.eq_of_length hsub2 hlen
  rw [newEvaluator_eq_mergeSort]
  exact this.symm

theorem newEvaluator_sorted (policies : List Policy) :
    ((NewEvaluator policies).policies).Pairwise (fun a b => a.priority ≤ b.priority) := by
  rw [newEvaluator_eq_mergeSort]
  have := @List.sorted_mergeSort Policy priorityLe priorityLe_trans priorityLe_total policies
  refine this.imp (fun h => ?_)
  simpa [priorityLe] using h

theorem newEvaluator_perm (policies : List Policy) :
    ((NewEvaluator policies).policies).Perm policies := by
  rw [newEvaluator_eq_mergeSort]
  exact List.mergeSort_perm policies priorityLe

/-- First-match: if every enabled policy before `pk` fails to match and
`pk` is an enabled match, the loop returns `pk`'s result. -/
theorem evalLoop_first_match (pre post : List Policy) (pk : Policy) (t : Task)
    (hfirst : ∀ p ∈ pre, p.enabled = true → matchesPolicy p t = some false)
    (hen : pk.enabled = true) (hmatch : matchesPolicy pk t = some true) :
    evalLoop (pre ++ pk :: post) t = some (matchResult pk t) := by
  induction pre with
  | nil => simp [evalLoop, hen, hmatch]
  | cons p rest ih =>
    have tail := ih (fun q hq => hfirst q (by simp [hq]))
    by_cases hpe : p.enabled = true
    · have hp0 : matchesPolicy p t = some false := hfirst p (by simp) hpe
      simp [evalLoop, hpe, hp0, tail]
    · simp [evalLoop, hpe, tail]

/-- A policy matches cleanly iff all three axes match cleanly. -/
theorem matchesPolicy_eq_true_iff (p : Policy) (t : Task) :
    matchesPolicy p t = some true ↔
      matchAddr p.srcAddrs t.srcIP = some true ∧
        matchAddr p.dstAddrs t.dstIP = some true ∧ matchSvc p.services t = true := by
  unfold matchesPolicy
  rcases hs : matchAddr p.srcAddrs t.srcIP with _ | bs
  · simp [hs]
  · rcases bs with _ | _
    · simp
    · rcases hd : matchAddr p.dstAddrs t.dstIP with _ | bd
      · simp [hd]
      · rcases bd with _ | _ <;> simp

/-- Implicit deny: if no enabled policy matches (all evaluate to a clean
`false`), the loop falls through to the implicit-deny result. -/
theorem evalLoop_implicit_deny (ps : List Policy) (t : Task)
    (h : ∀ p ∈ ps, p.enabled = true → matchesPolicy p t = some false) :
    evalLoop ps t = some (implicitDenyResult t) := by
  induction ps with
  | nil => rfl
  | cons p rest ih =>
    have tail := ih (fun q hq => h q (by simp [hq]))
    by_cases hpe : p.enabled = true
    · have := h p (by simp) hpe
      simp [evalLoop, hpe, this, tail]
    · simp [evalLoop, hpe, tail]

/-! ## Shared concrete fixtures for witnesses and counterexamples -/

/-- The universal address sentinel, as built by the flatteners
(`&model.AddressObject{Name: "all"}`: every other field zero). -/
def allAddr : AddressObject := ⟨"all", "", none, none, none, ""⟩

/-- The universal service sentinel (`&model.ServiceObject{Name: "all"}`). -/
def allSvc : ServiceObject := ⟨"all", "", 0, 0⟩

/-- A sample task `10.0.0.10 → 192.168.1.20, tcp/80`. -/
def task80 : Task :=
  ⟨⟨4, 0x0a00000a⟩, "10.0.0.0/24", ⟨4, 0xc0a80114⟩, "192.168.1.0/24", 80, "tcp", "http"⟩

/-- Sample deny policy with priority 100 and universal axes. -/
def polDeny100 : Policy :=
  ⟨"100", 100, "deny-all", [allAddr], [allAddr], [allSvc], [], [], [], "deny", true, ""⟩

/-- Sample accept policy with priority 200 and universal axes. -/
def polAccept200 : Policy :=
  ⟨"200", 200, "accept-all", [allAddr], [allAddr], [allSvc], [], [], [], "accept", true, ""⟩

/-! ## Claim theorems C1 and C2 -/

/-- C1: the Evaluator constructor stably sorts the policies by ascending
priority (equal priorities retain source order), and Evaluate returns the
decision of the first enabled policy in that order whose source axis,
destination axis and service axis all match the task; the result carries
that policy's id and action, decision ALLOW exactly for action `accept`
and DENY otherwise, with reason MATCH_POLICY_ACCEPT / MATCH_POLICY_DENY
accordingly. -/
theorem C1_stable_sort_and_first_match (policies : List Policy) (t : Task)
    (pre post : List Policy) (pk : Policy)
    (hsplit : (NewEvaluator policies).policies = pre ++ pk :: post)
    (hfirst : ∀ p ∈ pre, p.enabled = true → matchesPolicy p t = some false)
    (hen : pk.enabled = true)
    (hsrc : matchAddr pk.srcAddrs t.srcIP = some true)
    (hdst : matchAddr pk.dstAddrs t.dstIP = some true)
    (hsvc : matchSvc pk.services t = true) :
    ((NewEvaluator policies).policies).Perm policies ∧
      ((NewEvaluator policies).policies).Pairwise (fun a b => a.priority ≤ b.priority) ∧
      (∀ pr : Int, (NewEvaluator policies).policies.filter (fun p => p.priority = pr) =
        policies.filter (fun p => p.priority = pr)) ∧
      ∃ res, Evaluate (NewEvaluator policies) t = some res ∧
        res.matchedPolicyID = pk.id ∧
        res.matchedPolicyAction = pk.action ∧
        res.decision = (if pk.action = "accept" then "ALLOW" else "DENY") ∧
        res.reason =
          (if pk.action = "accept" then "MATCH_POLICY_ACCEPT" else "MATCH_POLICY_DENY") := by
  refine ⟨newEvaluator_perm policies, newEvaluator_sorted policies,
    fun pr => newEvaluator_filter_priority policies pr, matchResult pk t, ?_, rfl, rfl, rfl, rfl⟩
  have hmatch : matchesPolicy pk t = some true :=
    (matchesPolicy_eq_true_iff pk t).mpr ⟨hsrc, hdst, hsvc⟩
  unfold Evaluate
  rw [hsplit]
  exact evalLoop_first_match pre post pk t hfirst hen hmatch

/-- Witness for C1: on the already priority-sorted pair (deny at priority
100 before accept at priority 200) the task is decided by the deny
policy. -/
theorem C1_witness :
    ∃ res, Evaluate (NewEvaluator [polDeny100, polAccept200]) task80 = some res ∧
      res.matchedPolicyID = "100" ∧ res.decision = "DENY" ∧ res.reason = "MATCH_POLICY_DENY" := by
  have hsplit : (NewEvaluator [polDeny100, polAccept200]).policies =
      [] ++ polDeny100 :: [polAccept200] := by
    rw [newEvaluator_eq_mergeSort]
    exact List.mergeSort_of_sorted (by decide)
  obtain ⟨-, -, -, res, hres, hid, -, hdec, hreason⟩ :=
    C1_stable_sort_and_first_match [polDeny100, polAccept200] task80 [] [polAccept200]
      polDeny100 hsplit (by simp) (by decide) (by decide) (by decide) (by decide)
  exact ⟨res, hres, hid, by simpa using hdec, by simpa using hreason⟩

/-- C2: when no enabled policy matches the task on all three axes, the
evaluator returns decision DENY with reason IMPLICIT_DENY and an empty
matched policy id. -/
theorem C2_implicit_deny (e : Evaluator) (t : Task)
    (h : ∀ p ∈ e.policies, p.enabled = true → matchesPolicy p t = some false) :
    ∃ res, Evaluate e t = some res ∧
      res.decision = "DENY" ∧ res.reason = "IMPLICIT_DENY" ∧ res.matchedPolicyID = "" := by
  refine ⟨implicitDenyResult t, ?_, rfl, rfl, rfl⟩
  exact evalLoop_implicit_deny e.policies t h

/-- Witness for C2: an enabled policy with an explicitly empty service
list never matches, so the task falls through to the implicit deny. -/
theorem C2_witness :
    ∃ res, Evaluate ⟨[⟨"7", 7, "empty-svc", [allAddr], [allAddr], [], [], [], [],
        "accept", true, ""⟩]⟩ task80 = some res ∧
      res.decision = "DENY" ∧ res.reason = "IMPLICIT_DENY" ∧ res.matchedPolicyID = "" :=
  C2_implicit_deny _ task80 (by decide)

/-! ## The object flatteners (internal/parser/inputs.go and db.go)

Both providers hold the same four maps (`AddressObjects`,
`ServiceObjects`, `AddrGrps`, `SvcGrps`); Go maps are embedded as
association lists queried with `assocFind`.  The well-known registry
(pkg/wellknown/ports.go) is a map from upper-cased service names to
entry lists; entries carry an inclusive port range (in the committed
`ports.go` every entry is a single port, `startPort = endPort`, which is
what `db.go`'s `wk.Port` reads). -/

/-- First-match association-list lookup (embeds a Go map read). -/
def assocFind {α : Type} (m : List (String × α)) (k : String) : Option α :=
  (m.find? (fun kv => kv.1 = k)).map (·.2)

/-- A well-known registry entry (`wellknown.ServiceEntry`). -/
structure ServiceEntry where
  protocol : String
  startPort : Int
  endPort : Int
  deriving DecidableEq

/-- A well-known registry (`wellknown.serviceRegistry`). -/
def Registry : Type := List (String × List ServiceEntry)

/-- Embeds `wellknown.GetService`: a case-insensitive (upper-cased)
lookup; `none` is the `ok = false` return. -/
def GetService (reg : Registry) (name : String) : Option (List ServiceEntry) :=
  assocFind reg (asciiUpper name)

/-- The shared object-map state of `FortiGateParser` / `MariaDBParser`. -/
structure ParserMaps where
  addressObjects : List (String × AddressObject)
  serviceObjects : List (String × ServiceObject)
  addrGrps : List (String × List String)
  svcGrps : List (String × List String)

/-- The group names of the address-group map. -/
def addrGrpKeys (maps : ParserMaps) : List String := maps.addrGrps.map Prod.fst

/-- The group names of the service-group map. -/
def svcGrpKeys (maps : ParserMaps) : List String := maps.svcGrps.map Prod.fst

/-- Termination measure for the flatteners: group names not yet on the
visit stack. -/
def keysLeft (keys visited : List String) : Nat :=
  (keys.filter (fun k => !visited.contains k)).length

theorem assocFind_mem_keys {α : Type} {m : List (String × α)} {k : String} {v : α}
    (h : assocFind m k = some v) : k ∈ m.map Prod.fst := by
  unfold assocFind at h
  rcases hf : m.find? (fun kv => kv.1 = k) with _ | kv
  · rw [hf] at h; cases h
  · have hkv : decide (kv.1 = k) = true := by
      have := @List.find?_some _ (fun kv => decide (kv.1 = k)) kv m hf
      simpa using this
    have hmem : kv ∈ m := List.mem_of_find?_eq_some hf
    have : kv.1 = k := by simpa using hkv
    subst this
    exact List.mem_map_of_mem Prod.fst hmem

theorem keysLeft_lt (keys visited : List String) (name : String)
    (hmem : name ∈ keys) (hvis : visited.contains name = false) :
    keysLeft keys (name :: visited) < keysLeft keys visited := by
  unfold keysLeft
  have hsub : (keys.filter (fun k => !(name :: visited).contains k)).Sublist
      (keys.filter (fun k => !visited.contains k)) := by
    refine List.monotone_filter_right keys (fun a ha => ?_)
    simp only [List.contains_cons, Bool.not_eq_true', Bool.or_eq_false_iff] at ha ⊢
    exact ha.2
  refine Nat.lt_of_le_of_ne (List.Sublist.length_le hsub) (fun hlen => ?_)
  have heq := List.Sublist.eq_of_length hsub hlen
  have hin : name ∈ keys.filter (fun k => !visited.contains k) := by
    refine List.mem_filter.mpr ⟨hmem, ?_⟩
    simp only [hvis, Bool.not_false]
  rw [← heq] at hin
  have := (List.mem_filter.mp hin).2
  simp at this

mutual

/-- Embeds `flattenAddrGroup` (identical in `FortiGateParser` and
`MariaDBParser`): the reserved name `all` (case-insensitive) yields the
universal sentinel; a name on the visit stack is a cycle error (the error
value is the re-entered name, which Go wraps into the
`circular dependency detected` message); otherwise the direct object, if
any, is emitted followed by the recursively flattened group members. -/
def flattenAddrGroup (maps : ParserMaps) (name : String) (visited : List String) :
    Except String (List AddressObject) :=
  if eqFold name "all" then .ok [allAddr]
  else if hvis : visited.contains name then .error name
  else
    let direct : List AddressObject :=
      match assocFind maps.addressObjects name with
      | some a => [a]
      | none => []
    match hm : assocFind maps.addrGrps name with
    | none => .ok direct
    | some members => (flattenAddrMembers maps members (name :: visited)).map (direct ++ ·)
termination_by (keysLeft (addrGrpKeys maps) visited, 0)
decreasing_by
  exact Prod.Lex.left _ _
    (keysLeft_lt (addrGrpKeys maps) visited name (assocFind_mem_keys hm) (by simpa using hvis))

/-- The member loop of `flattenAddrGroup` (errors abort immediately). -/
def flattenAddrMembers (maps : ParserMaps) (members : List String) (visited : List String) :
    Except String (List AddressObject) :=
  match members with
  | [] => .ok []
  | m :: rest =>
    match flattenAddrGroup maps m visited with
    | .error e => .error e
    | .ok xs => (flattenAddrMembers maps rest visited).map (xs ++ ·)
termination_by (keysLeft (addrGrpKeys maps) visited, members.length + 1)
decreasing_by
  · exact Prod.Lex.right _ (Nat.succ_pos _)
  · refine Prod.Lex.right _ ?_
    simp only [List.length_cons]
    omega

end

/-- Non-dependent unfolding of `flattenAddrGroup` (for rewriting). -/
theorem flattenAddrGroup_eq (maps : ParserMaps) (name : String) (visited : List String) :
    flattenAddrGroup maps name visited =
      if eqFold name "all" then .ok [allAddr]
      else if visited.contains name then .error name
      else
        let direct : List AddressObject :=
          match assocFind maps.addressObjects name with
          | some a => [a]
          | none => []
        match assocFind maps.addrGrps name with
        | none => .ok direct
        | some members => (flattenAddrMembers maps members (name :: visited)).map (direct ++ ·) := by
  rw [flattenAddrGroup]
  split
  · rfl
  · split
    · rfl
    · split <;> rename_i heq <;> split <;> rename_i heq2 <;> simp [heq, heq2]

mutual

/-- Embeds `FortiGateParser.flattenSvcGroup` (inputs.go): direct object
and group expansion with cycle detection; a name resolving to neither is
tried against the well-known registry only — there is no ad-hoc
`proto_port` fallback in this provider. -/
def fgFlattenSvcGroup (maps : ParserMaps) (reg : Registry) (name : String)
    (visited : List String) : Except String (List ServiceObject) :=
  if eqFold name "all" then .ok [allSvc]
  else if hvis : visited.contains name then .error name
  else
    let direct : List ServiceObject :=
      match assocFind maps.serviceObjects name with
      | some svc => [svc]
      | none => []
    let found : Bool :=
      (assocFind maps.serviceObjects name).isSome || (assocFind maps.svcGrps name).isSome
    match hm : assocFind maps.svcGrps name with
    | none =>
      if found then .ok direct
      else
        match GetService reg name with
        | some wks => .ok (wks.map (fun wk => ⟨name, wk.protocol, wk.startPort, wk.endPort⟩))
        | none => .ok []
    | some members => (fgFlattenSvcMembers maps reg members (name :: visited)).map (direct ++ ·)
termination_by (keysLeft (svcGrpKeys maps) visited, 0)
decreasing_by
  exact Prod.Lex.left _ _
    (keysLeft_lt (svcGrpKeys maps) visited name (assocFind_mem_keys hm) (by simpa using hvis))

/-- The member loop of `fgFlattenSvcGroup`. -/
def fgFlattenSvcMembers (maps : ParserMaps) (reg : Registry) (members : List String)
    (visited : List String) : Except String (List ServiceObject) :=
  match members with
  | [] => .ok []
  | m :: rest =>
    match fgFlattenSvcGroup maps reg m visited with
    | .error e => .error e
    | .ok xs => (fgFlattenSvcMembers maps reg rest visited).map (xs ++ ·)
termination_by (keysLeft (svcGrpKeys maps) visited, members.length + 1)
decreasing_by
  · exact Prod.Lex.right _ (Nat.succ_pos _)
  · refine Prod.Lex.right _ ?_
    simp only [List.length_cons]
    omega

end

/-- The ad-hoc `tcp_<port>` / `udp_<start>-<end>` parsing step of
`MariaDBParser.flattenSvcGroup` (db.go lines 316-342): split on `"_"`,
case-fold the protocol, split the remainder on `"-"`; the first token
must parse as an integer, the second is used only when there are exactly
two tokens (extra tokens are ignored, yielding a single-port entry). -/
def dbAdhocService (name : String) : List ServiceObject :=
  match splitOnChar '_' name with
  | [p0, p1] =>
    let protoStr := asciiLower p0
    if protoStr = "tcp" ∨ protoStr = "udp" then
      match splitOnChar '-' p1 with
      | [] => []
      | q0 :: restParts =>
        match goAtoi q0 with
        | none => []
        | some start =>
          match restParts with
          | [q1] =>
            match goAtoi q1 with
            | none => []
            | some stop => [⟨name, protoStr, start, stop⟩]
          | _ => [⟨name, protoStr, start, start⟩]
    else []
  | _ => []

mutual

/-- Embeds `MariaDBParser.flattenSvcGroup` (db.go): like the FortiGate
version, but the well-known entries use the single `Port` field for both
range ends, and a name that is still unresolved is parsed with the
ad-hoc `proto_port` syntax. -/
def dbFlattenSvcGroup (maps : ParserMaps) (reg : Registry) (name : String)
    (visited : List String) : Except String (List ServiceObject) :=
  if eqFold name "all" then .ok [allSvc]
  else if hvis : visited.contains name then .error name
  else
    let direct : List ServiceObject :=
      match assocFind maps.serviceObjects name with
      | some svc => [svc]
      | none => []
    let found : Bool :=
      (assocFind maps.serviceObjects name).isSome || (assocFind maps.svcGrps name).isSome
    match hm : assocFind maps.svcGrps name with
    | none =>
      if found then .ok direct
      else
        match GetService reg name with
        | some wks => .ok (wks.map (fun wk => ⟨name, wk.protocol, wk.startPort, wk.startPort⟩))
        | none => .ok (dbAdhocService name)
    | some members => (dbFlattenSvcMembers maps reg members (name :: visited)).map (direct ++ ·)
termination_by (keysLeft (svcGrpKeys maps) visited, 0)
decreasing_by
  exact Prod.Lex.left _ _
    (keysLeft_lt (svcGrpKeys maps) visited name (assocFind_mem_keys hm) (by simpa using hvis))

/-- The member loop of `dbFlattenSvcGroup`. -/
def dbFlattenSvcMembers (maps : ParserMaps) (reg : Registry) (members : List String)
    (visited : List String) : Except String (List ServiceObject) :=
  match members with
  | [] => .ok []
  | m :: rest =>
    match dbFlattenSvcGroup maps reg m visited with
    | .error e => .error e
    | .ok xs => (dbFlattenSvcMembers maps reg rest visited).map (xs ++ ·)
termination_by (keysLeft (svcGrpKeys maps) visited, members.length + 1)
decreasing_by
  · exact Prod.Lex.right _ (Nat.succ_pos _)
  · refine Prod.Lex.right _ ?_
    simp only [List.length_cons]
    omega

end

/-- Non-dependent unfolding of `fgFlattenSvcGroup`. -/
theorem fgFlattenSvcGroup_eq (maps : ParserMaps) (reg : Registry) (name : String)
    (visited : List String) :
    fgFlattenSvcGroup maps reg name visited =
      if eqFold name "all" then .ok [allSvc]
      else if visited.contains name then .error name
      else
        let direct : List ServiceObject :=
          match assocFind maps.serviceObjects name with
          | some svc => [svc]
          | none => []
        let found : Bool :=
          (assocFind maps.serviceObjects name).isSome || (assocFind maps.svcGrps name).isSome
        match assocFind maps.svcGrps name with
        | none =>
          if found then .ok direct
          else
            match GetService reg name with
            | some wks => .ok (wks.map (fun wk => ⟨name, wk.protocol, wk.startPort, wk.endPort⟩))
            | none => .ok []
        | some members =>
          (fgFlattenSvcMembers maps reg members (name :: visited)).map (direct ++ ·) := by
  rw [fgFlattenSvcGroup]
  split
  · rfl
  · split
    · rfl
    · split <;> rename_i heq <;> split <;> rename_i heq2 <;> simp [heq, heq2]

/-- Non-dependent unfolding of `dbFlattenSvcGroup`. -/
theorem dbFlattenSvcGroup_eq (maps : ParserMaps) (reg : Registry) (name : String)
    (visited : List String) :
    dbFlattenSvcGroup maps reg name visited =
      if eqFold name "all" then .ok [allSvc]
      else if visited.contains name then .error name
      else
        let direct : List ServiceObject :=
          match assocFind maps.serviceObjects name with
          | some svc => [svc]
          | none => []
        let found : Bool :=
          (assocFind maps.serviceObjects name).isSome || (assocFind maps.svcGrps name).isSome
        match assocFind maps.svcGrps name with
        | none =>
          if found then .ok direct
          else
            match GetService reg name with
            | some wks => .ok (wks.map (fun wk => ⟨name, wk.protocol, wk.startPort, wk.startPort⟩))
            | none => .ok (dbAdhocService name)
        | some members =>
          (dbFlattenSvcMembers maps reg members (name :: visited)).map (direct ++ ·) := by
  rw [dbFlattenSvcGroup]
  split
  · rfl
  · split
    · rfl
    · split <;> rename_i heq <;> split <;> rename_i heq2 <;> simp [heq, heq2]

/-- The per-axis raw-name loop of `flattenGroups` (each name starts with
a fresh `make(map[string]bool)` visit set; results are concatenated; the
first error aborts). -/
def flattenAddrNames (maps : ParserMaps) : List String → Except String (List AddressObject)
  | [] => .ok []
  | n :: rest =>
    match flattenAddrGroup maps n [] with
    | .error e => .error e
    | .ok xs => (flattenAddrNames maps rest).map (xs ++ ·)

/-- The service-axis raw-name loop of `flattenGroups`, parameterised by
the provider's service flattener. -/
def flattenSvcNames (svcF : String → Except String (List ServiceObject)) :
    List String → Except String (List ServiceObject)
  | [] => .ok []
  | n :: rest =>
    match svcF n with
    | .error e => .error e
    | .ok xs => (flattenSvcNames svcF rest).map (xs ++ ·)

/-- The per-policy body of `flattenGroups` (identical in both providers
up to the service flattener): each axis is rebuilt only when its raw
name list is non-empty, in the order src, dst, services. -/
def flattenPolicyWith (maps : ParserMaps) (svcF : String → Except String (List ServiceObject))
    (policy : Policy) : Except String Policy :=
  match (if policy.rawSrcAddrNames.isEmpty then .ok policy.srcAddrs
         else flattenAddrNames maps policy.rawSrcAddrNames) with
  | .error e => .error e
  | .ok src =>
    match (if policy.rawDstAddrNames.isEmpty then .ok policy.dstAddrs
           else flattenAddrNames maps policy.rawDstAddrNames) with
    | .error e => .error e
    | .ok dst =>
      match (if policy.rawSvcNames.isEmpty then .ok policy.services
             else flattenSvcNames svcF policy.rawSvcNames) with
      | .error e => .error e
      | .ok svcs => .ok { policy with srcAddrs := src, dstAddrs := dst, services := svcs }

/-- The policy loop of `flattenGroups`. -/
def flattenGroupsWith (maps : ParserMaps) (svcF : String → Except String (List ServiceObject)) :
    List Policy → Except String (List Policy)
  | [] => .ok []
  | p :: rest =>
    match flattenPolicyWith maps svcF p with
    | .error e => .error e
    | .ok p2 => (flattenGroupsWith maps svcF rest).map (p2 :: ·)

/-- Embeds `FortiGateParser.flattenGroups`. -/
def fgFlattenGroups (maps : ParserMaps) (reg : Registry) (policies : List Policy) :
    Except String (List Policy) :=
  flattenGroupsWith maps (fun n => fgFlattenSvcGroup maps reg n []) policies

/-- Embeds `MariaDBParser.flattenGroups`. -/
def dbFlattenGroups (maps : ParserMaps) (reg : Registry) (policies : List Policy) :
    Except String (List Policy) :=
  flattenGroupsWith maps (fun n => dbFlattenSvcGroup maps reg n []) policies

/-- Embeds the per-row policy construction of `MariaDBParser.loadPolicies`
(db.go lines 154-180), after the JSON columns have been decoded: the id
is formatted from the integer `policy_id`, `Enabled` compares the
`is_enabled` column with `"enable"`, and each raw list is replaced by
`["all"]` whenever it has length zero — which cannot distinguish an
explicitly empty JSON array `[]` from an omitted column. -/
def dbLoadPolicyRow (priority : Int) (policyID : Int)
    (srcNames dstNames svcNames : List String) (action isEnabled : String) : Policy :=
  { id := toString policyID
    priority := priority
    name := ""
    srcAddrs := []
    dstAddrs := []
    services := []
    rawSrcAddrNames := if srcNames.isEmpty then ["all"] else srcNames
    rawDstAddrNames := if dstNames.isEmpty then ["all"] else dstNames
    rawSvcNames := if svcNames.isEmpty then ["all"] else svcNames
    action := action
    enabled := isEnabled = "enable"
    schedule := "" }

/-- Embeds the `next`-time defaulting of `FortiGateParser.parsePolicyConfig`
(inputs.go lines 491-501): raw lists that are still empty when the policy
block closes become `["all"]`. -/
def fgPolicyDefaults (p : Policy) : Policy :=
  { p with
    rawSrcAddrNames := if p.rawSrcAddrNames.isEmpty then ["all"] else p.rawSrcAddrNames
    rawDstAddrNames := if p.rawDstAddrNames.isEmpty then ["all"] else p.rawDstAddrNames
    rawSvcNames := if p.rawSvcNames.isEmpty then ["all"] else p.rawSvcNames }

/-- Empty parser maps (no objects, no groups). -/
def emptyMaps : ParserMaps := ⟨[], [], [], []⟩

/-- Modelled from the spec: the embedded `well_known_ports.csv` is not in
the repository, so a sample registry is built per Section 4.2 of the
spec — upper-cased service-name keys with single-port entries, the `DNS`
alias for `domain`, and the `ALL_ICMP` sentinel.  Ad-hoc `proto_port`
names are not registry keys (the spec treats them as a separate fallback
stage). -/
def specRegistry : Registry :=
  [("HTTP", [⟨"tcp", 80, 80⟩]),
   ("HTTPS", [⟨"tcp", 443, 443⟩]),
   ("SSH", [⟨"tcp", 22, 22⟩]),
   ("DOMAIN", [⟨"tcp", 53, 53⟩, ⟨"udp", 53, 53⟩]),
   ("DNS", [⟨"tcp", 53, 53⟩, ⟨"udp", 53, 53⟩]),
   ("ALL_ICMP", [⟨"tcp", 65535, 65535⟩])]

/-! ## Claim C5: explicit emptiness -/

/-- C5 counterexample: the database provider does NOT preserve explicit
emptiness.  A row whose `src_objects` column decodes to the explicitly
empty list `[]` is normalised to the raw list `["all"]` by
`loadPolicies`, flattens to the universal sentinel, and its source axis
then matches every IP — the claim demands an empty axis that never
matches. -/
theorem C5_counterexample :
    (dbLoadPolicyRow 1 42 [] [] [] "accept" "enable").rawSrcAddrNames = ["all"] ∧
    dbFlattenGroups emptyMaps specRegistry [dbLoadPolicyRow 1 42 [] [] [] "accept" "enable"] =
      .ok [{ dbLoadPolicyRow 1 42 [] [] [] "accept" "enable" with
              srcAddrs := [allAddr], dstAddrs := [allAddr], services := [allSvc] }] ∧
    matchAddr [allAddr] ⟨4, 0x01020304⟩ = some true := by
  refine ⟨rfl, ?_, by decide⟩
  simp [dbFlattenGroups, flattenGroupsWith, flattenPolicyWith, flattenAddrNames,
    flattenSvcNames, flattenAddrGroup_eq, dbFlattenSvcGroup_eq, dbLoadPolicyRow,
    eqFold, asciiLower, asciiLowerChar, allAddr, allSvc, Except.map]

/-- C5 (amended): the flatteners themselves preserve explicit emptiness
on every axis — for any provider, a policy whose raw name list for an
axis (source, destination or service) is empty keeps that axis list
unchanged (hence empty for a freshly loaded policy), and an empty axis
never matches; but the database loader `loadPolicies` erases the
explicit/omitted distinction beforehand, normalising an explicitly
empty decoded list to `["all"]` exactly as it does an omitted column. -/
theorem C5_flattener_preserves_explicit_empty (maps : ParserMaps)
    (svcF : String → Except String (List ServiceObject)) (policy : Policy) :
    (∀ p2, flattenPolicyWith maps svcF policy = .ok p2 →
      (policy.rawSrcAddrNames = [] → p2.srcAddrs = policy.srcAddrs ∧
        (policy.srcAddrs = [] → ∀ ip, matchAddr p2.srcAddrs ip = some false)) ∧
      (policy.rawDstAddrNames = [] → p2.dstAddrs = policy.dstAddrs ∧
        (policy.dstAddrs = [] → ∀ ip, matchAddr p2.dstAddrs ip = some false)) ∧
      (policy.rawSvcNames = [] → p2.services = policy.services ∧
        (policy.services = [] → ∀ t, matchSvc p2.services t = false))) ∧
    (∀ pr pid (dst svc : List String) (act en : String),
      (dbLoadPolicyRow pr pid [] dst svc act en).rawSrcAddrNames = ["all"]) := by
  refine ⟨?_, fun pr pid dst svc act en => rfl⟩
  intro p2 hp2
  unfold flattenPolicyWith at hp2
  rcases hsrc : (if policy.rawSrcAddrNames.isEmpty then Except.ok policy.srcAddrs
      else flattenAddrNames maps policy.rawSrcAddrNames) with e | src
  · rw [hsrc] at hp2; cases hp2
  · rw [hsrc] at hp2
    rcases hdst : (if policy.rawDstAddrNames.isEmpty then Except.ok policy.dstAddrs
        else flattenAddrNames maps policy.rawDstAddrNames) with e | dst
    · rw [hdst] at hp2; cases hp2
    · rw [hdst] at hp2
      rcases hsvc : (if policy.rawSvcNames.isEmpty then Except.ok policy.services
          else flattenSvcNames svcF policy.rawSvcNames) with e | svcs
      · rw [hsvc] at hp2; cases hp2
      · rw [hsvc] at hp2
        simp only at hp2
        cases hp2
        refine ⟨?_, ?_, ?_⟩
        · intro hsraw
          rw [hsraw] at hsrc
          simp only [List.isEmpty_nil, if_true, Except.ok.injEq] at hsrc
          refine ⟨hsrc.symm, fun hempty ip => ?_⟩
          have hs : src = [] := by rw [← hsrc, hempty]
          simp only
          simp [hs, matchAddr]
        · intro hdraw
          rw [hdraw] at hdst
          simp only [List.isEmpty_nil, if_true, Except.ok.injEq] at hdst
          refine ⟨hdst.symm, fun hempty ip => ?_⟩
          have hd : dst = [] := by rw [← hdst, hempty]
          simp only
          simp [hd, matchAddr]
        · intro hvraw
          rw [hvraw] at hsvc
          simp only [List.isEmpty_nil, if_true, Except.ok.injEq] at hsvc
          refine ⟨hsvc.symm, fun hempty t => ?_⟩
          have hv : svcs = [] := by rw [← hsvc, hempty]
          simp only
          simp [hv, matchSvc]

/-- The concrete policy of the C5 witness: explicitly empty raw name
lists and explicitly empty axes on all three axes. -/
def c5Pol : Policy := ⟨"1", 1, "", [], [], [], [], [], [], "accept", true, ""⟩

/-- Witness for C5's amended theorem at a concrete policy with
explicitly empty lists on every axis: flattening keeps all three axes
empty and none of them matches. -/
theorem C5_witness :
    flattenPolicyWith emptyMaps (fun n => dbFlattenSvcGroup emptyMaps specRegistry n [])
        c5Pol = .ok c5Pol ∧
    c5Pol.srcAddrs = [] ∧ c5Pol.dstAddrs = [] ∧ c5Pol.services = [] ∧
    matchAddr c5Pol.srcAddrs ⟨4, 0x0a000001⟩ = some false ∧
    matchAddr c5Pol.dstAddrs ⟨4, 0xc0a80105⟩ = some false ∧
    matchSvc c5Pol.services task80 = false ∧
    (dbLoadPolicyRow 1 42 [] [] [] "accept" "enable").rawSrcAddrNames = ["all"] := by
  have h := C5_flattener_preserves_explicit_empty emptyMaps
    (fun n => dbFlattenSvcGroup emptyMaps specRegistry n []) c5Pol
  have hok : flattenPolicyWith emptyMaps
      (fun n => dbFlattenSvcGroup emptyMaps specRegistry n []) c5Pol = .ok c5Pol := by
    rfl
  obtain ⟨h1, h2, h3⟩ := h.1 c5Pol hok
  exact ⟨hok, rfl, rfl, rfl, (h1 rfl).2 rfl ⟨4, 0x0a000001⟩,
    (h2 rfl).2 rfl ⟨4, 0xc0a80105⟩, (h3 rfl).2 rfl task80,
    h.2 1 42 [] [] "accept" "enable"⟩

/-! ## Claim C6: the reserved name `all` -/

/-- C6 counterexample: the evaluator's address match is case-sensitive —
an address object literally named `"ALL"` (equal to `all` under case
folding) does not match; only the flattener folds case. -/
theorem C6_counterexample :
    eqFold "ALL" "all" = true ∧
    matchAddr [⟨"ALL", "", none, none, none, ""⟩] ⟨4, 0x0a000001⟩ = some false := by
  constructor
  · decide
  · decide

/-- C6 (amended): case-insensitivity of the reserved name `all` lives in
the flatteners, not in the evaluator: every raw name equal to `all`
under (ASCII) case folding flattens to the lower-case sentinel object,
and the evaluator's address match accepts every IP for an object named
exactly `"all"` — so any-case `all` matches any IP after flattening,
while `matchAddr` itself compares the name case-sensitively. -/
theorem C6_all_case_insensitive_via_flattener (maps : ParserMaps) (name : String)
    (visited : List String) (ip : GoIP) (rest : List AddressObject)
    (h : eqFold name "all" = true) :
    flattenAddrGroup maps name visited = .ok [allAddr] ∧
    matchAddr (allAddr :: rest) ip = some true := by
  constructor
  · rw [flattenAddrGroup_eq, h]
    rfl
  · simp [matchAddr, allAddr]

/-- Witness for C6's amended theorem at the mixed-case name `"All"`. -/
theorem C6_witness :
    flattenAddrGroup emptyMaps "All" [] = .ok [allAddr] ∧
    matchAddr [allAddr] ⟨4, 0x0a000001⟩ = some true := by
  have h := C6_all_case_insensitive_via_flattener emptyMaps "All" [] ⟨4, 0x0a000001⟩ [] (by decide)
  simpa using h

/-! ## Claim C7: cycle detection

The reference graph of a group map: `grpEdge g a b` when `b` is a member
of group `a`.  `IsWalk g a nodes` states that `nodes` is a walk starting
from `a` along member references. -/

/-- One member reference in a group map. -/
def grpEdge (g : List (String × List String)) (a b : String) : Prop :=
  ∃ ms, assocFind g a = some ms ∧ b ∈ ms

/-- `nodes` is a walk from `a` along member references. -/
def IsWalk (g : List (String × List String)) : String → List String → Prop
  | _, [] => True
  | a, b :: rest => grpEdge g a b ∧ IsWalk g b rest

section NoRevisit

variable {γ : Type} (f : String → List String → Except String γ)
  (g : List (String × List String))

/-- Generic depth-first no-revisit property: a flattener that errors on
stack re-entry and recursively succeeds on all members of a successfully
flattened group can only succeed when no walk (through non-`all` names)
out of the start node revisits the stack or repeats a node. -/
theorem flatten_ok_no_revisit
    (hf_vis : ∀ n v r, f n v = .ok r → eqFold n "all" = false → v.contains n = false)
    (hf_step : ∀ n v r ms, f n v = .ok r → eqFold n "all" = false →
      assocFind g n = some ms → ∀ m ∈ ms, ∃ r2, f m (n :: v) = .ok r2) :
    ∀ (nodes : List String) (name : String) (visited : List String) (r : γ),
      f name visited = .ok r → eqFold name "all" = false →
      (∀ n ∈ nodes, eqFold n "all" = false) → IsWalk g name nodes →
      nodes.Nodup ∧ ∀ n ∈ nodes, n ∉ name :: visited := by
  intro nodes
  induction nodes with
  | nil => exact fun name visited r _ _ _ _ => ⟨List.nodup_nil, by simp⟩
  | cons b rest ih =>
    intro name visited r hok hall halln hwalk
    obtain ⟨⟨ms, hms, hbms⟩, hwrest⟩ := hwalk
    obtain ⟨r2, hok2⟩ := hf_step name visited r ms hok hall hms b hbms
    have hballn : eqFold b "all" = false := halln b (by simp)
    have hbvis : (name :: visited).contains b = false := hf_vis b (name :: visited) r2 hok2 hballn
    have hbnotin : b ∉ name :: visited := by simpa using hbvis
    have ihres := ih b (name :: visited) r2 hok2 hballn (fun n hn => halln n (by simp [hn])) hwrest
    refine ⟨List.Nodup.cons (fun hbrest => ?_) ihres.1, ?_⟩
    · exact (ihres.2 b hbrest) (by simp)
    · intro n hn
      rcases List.mem_cons.mp hn with hn | hn
      · subst hn; exact hbnotin
      · intro hmem
        exact (ihres.2 n hn) (by simp [List.mem_cons.mp hmem])

/-- Generic consequence: a walk from `name` that repeats a node or
returns to `name` forces the flattener to fail on `name` with a fresh
visit stack. -/
theorem flatten_cycle_error
    (hf_vis : ∀ n v r, f n v = .ok r → eqFold n "all" = false → v.contains n = false)
    (hf_step : ∀ n v r ms, f n v = .ok r → eqFold n "all" = false →
      assocFind g n = some ms → ∀ m ∈ ms, ∃ r2, f m (n :: v) = .ok r2)
    (nodes : List String) (name : String)
    (hall : eqFold name "all" = false) (halln : ∀ n ∈ nodes, eqFold n "all" = false)
    (hwalk : IsWalk g name nodes) (hcyc : ¬ nodes.Nodup ∨ name ∈ nodes) :
    ∃ e, f name [] = .error e := by
  rcases hres : f name [] with e | r
  · exact ⟨e, rfl⟩
  · exfalso
    have h := flatten_ok_no_revisit f g hf_vis hf_step nodes name [] r hres hall halln hwalk
    rcases hcyc with hdup | hmem
    · exact hdup h.1
    · exact (h.2 name hmem) (by simp)

end NoRevisit

/-- Members of a successfully flattened address-member list each flatten
successfully. -/
theorem flattenAddrMembers_ok (maps : ParserMaps) :
    ∀ (ms : List String) (v : List String) (r : List AddressObject),
      flattenAddrMembers maps ms v = .ok r →
      ∀ m ∈ ms, ∃ r2, flattenAddrGroup maps m v = .ok r2 := by
  intro ms
  induction ms with
  | nil => intro v r _ m hm; cases hm
  | cons m rest ih =>
    intro v r hok x hx
    rw [flattenAddrMembers] at hok
    rcases hm : flattenAddrGroup maps m v with e | xs
    · rw [hm] at hok; cases hok
    · rw [hm] at hok
      rcases hrest : flattenAddrMembers maps rest v with e | ys
      · rw [hrest] at hok; cases hok
      · rcases List.mem_cons.mp hx with hx | hx
        · subst hx; exact ⟨xs, hm⟩
        · exact ih v ys hrest x hx

/-- `flattenAddrGroup` satisfies the stack-re-entry property. -/
theorem flattenAddrGroup_vis (maps : ParserMaps) :
    ∀ n v r, flattenAddrGroup maps n v = .ok r → eqFold n "all" = false →
      v.contains n = false := by
  intro n v r hok hall
  rw [flattenAddrGroup_eq, hall] at hok
  rw [if_neg (by simp)] at hok
  by_cases hvis : v.contains n = true
  · rw [if_pos hvis] at hok
    exact absurd hok (by simp)
  · simpa using hvis

/-- `flattenAddrGroup` satisfies the member-success property. -/
theorem flattenAddrGroup_step (maps : ParserMaps) :
    ∀ n v r ms, flattenAddrGroup maps n v = .ok r → eqFold n "all" = false →
      assocFind maps.addrGrps n = some ms →
      ∀ m ∈ ms, ∃ r2, flattenAddrGroup maps m (n :: v) = .ok r2 := by
  intro n v r ms hok hall hms m hm
  rw [flattenAddrGroup_eq, hall] at hok
  rw [if_neg (by simp)] at hok
  by_cases hvis : v.contains n = true
  · rw [if_pos hvis] at hok
    exact absurd hok (by simp)
  · rw [if_neg hvis] at hok
    simp only [hms] at hok
    rcases hmem : flattenAddrMembers maps ms (n :: v) with e | r3
    · rw [hmem] at hok
      simp [Except.map] at hok
    · exact flattenAddrMembers_ok maps ms (n :: v) r3 hmem m hm

/-- Members of a successfully flattened FortiGate service-member list
each flatten successfully. -/
theorem fgFlattenSvcMembers_ok (maps : ParserMaps) (reg : Registry) :
    ∀ (ms : List String) (v : List String) (r : List ServiceObject),
      fgFlattenSvcMembers maps reg ms v = .ok r →
      ∀ m ∈ ms, ∃ r2, fgFlattenSvcGroup maps reg m v = .ok r2 := by
  intro ms
  induction ms with
  | nil => intro v r _ m hm; cases hm
  | cons m rest ih =>
    intro v r hok x hx
    rw [fgFlattenSvcMembers] at hok
    rcases hm : fgFlattenSvcGroup maps reg m v with e | xs
    · rw [hm] at hok; cases hok
    · rw [hm] at hok
      rcases hrest : fgFlattenSvcMembers maps reg rest v with e | ys
      · rw [hrest] at hok; cases hok
      · rcases List.mem_cons.mp hx with hx | hx
        · subst hx; exact ⟨xs, hm⟩
        · exact ih v ys hrest x hx

/-- `fgFlattenSvcGroup` satisfies the stack-re-entry property. -/
theorem fgFlattenSvcGroup_vis (maps : ParserMaps) (reg : Registry) :
    ∀ n v r, fgFlattenSvcGroup maps reg n v = .ok r → eqFold n "all" = false →
      v.contains n = false := by
  intro n v r hok hall
  rw [fgFlattenSvcGroup_eq, hall] at hok
  rw [if_neg (by simp)] at hok
  by_cases hvis : v.contains n = true
  · rw [if_pos hvis] at hok
    exact absurd hok (by simp)
  · simpa using hvis

/-- `fgFlattenSvcGroup` satisfies the member-success property. -/
theorem fgFlattenSvcGroup_step (maps : ParserMaps) (reg : Registry) :
    ∀ n v r ms, fgFlattenSvcGroup maps reg n v = .ok r → eqFold n "all" = false →
      assocFind maps.svcGrps n = some ms →
      ∀ m ∈ ms, ∃ r2, fgFlattenSvcGroup maps reg m (n :: v) = .ok r2 := by
  intro n v r ms hok hall hms m hm
  rw [fgFlattenSvcGroup_eq, hall] at hok
  rw [if_neg (by simp)] at hok
  by_cases hvis : v.contains n = true
  · rw [if_pos hvis] at hok
    exact absurd hok (by simp)
  · rw [if_neg hvis] at hok
    simp only [hms] at hok
    rcases hmem : fgFlattenSvcMembers maps reg ms (n :: v) with e | r3
    · rw [hmem] at hok
      simp [Except.map] at hok
    · exact fgFlattenSvcMembers_ok maps reg ms (n :: v) r3 hmem m hm

/-- Members of a successfully flattened MariaDB service-member list each
flatten successfully. -/
theorem dbFlattenSvcMembers_ok (maps : ParserMaps) (reg : Registry) :
    ∀ (ms : List String) (v : List String) (r : List ServiceObject),
      dbFlattenSvcMembers maps reg ms v = .ok r →
      ∀ m ∈ ms, ∃ r2, dbFlattenSvcGroup maps reg m v = .ok r2 := by
  intro ms
  induction ms with
  | nil => intro v r _ m hm; cases hm
  | cons m rest ih =>
    intro v r hok x hx
    rw [dbFlattenSvcMembers] at hok
    rcases hm : dbFlattenSvcGroup maps reg m v with e | xs
    · rw [hm] at hok; cases hok
    · rw [hm] at hok
      rcases hrest : dbFlattenSvcMembers maps reg rest v with e | ys
      · rw [hrest] at hok; cases hok
      · rcases List.mem_cons.mp hx with hx | hx
        · subst hx; exact ⟨xs, hm⟩
        · exact ih v ys hrest x hx

/-- `dbFlattenSvcGroup` satisfies the stack-re-entry property. -/
theorem dbFlattenSvcGroup_vis (maps : ParserMaps) (reg : Registry) :
    ∀ n v r, dbFlattenSvcGroup maps reg n v = .ok r → eqFold n "all" = false →
      v.contains n = false := by
  intro n v r hok hall
  rw [dbFlattenSvcGroup_eq, hall] at hok
  rw [if_neg (by simp)] at hok
  by_cases hvis : v.contains n = true
  · rw [if_pos hvis] at hok
    exact absurd hok (by simp)
  · simpa using hvis

/-- `dbFlattenSvcGroup` satisfies the member-success property. -/
theorem dbFlattenSvcGroup_step (maps : ParserMaps) (reg : Registry) :
    ∀ n v r ms, dbFlattenSvcGroup maps reg n v = .ok r → eqFold n "all" = false →
      assocFind maps.svcGrps n = some ms →
      ∀ m ∈ ms, ∃ r2, dbFlattenSvcGroup maps reg m (n :: v) = .ok r2 := by
  intro n v r ms hok hall hms m hm
  rw [dbFlattenSvcGroup_eq, hall] at hok
  rw [if_neg (by simp)] at hok
  by_cases hvis : v.contains n = true
  · rw [if_pos hvis] at hok
    exact absurd hok (by simp)
  · rw [if_neg hvis] at hok
    simp only [hms] at hok
    rcases hmem : dbFlattenSvcMembers maps reg ms (n :: v) with e | r3
    · rw [hmem] at hok
      simp [Except.map] at hok
    · exact dbFlattenSvcMembers_ok maps reg ms (n :: v) r3 hmem m hm

/-- If the whole policy list flattens, each policy flattens. -/
theorem flattenGroupsWith_ok (maps : ParserMaps)
    (svcF : String → Except String (List ServiceObject)) :
    ∀ (ps : List Policy) (out : List Policy), flattenGroupsWith maps svcF ps = .ok out →
      ∀ p ∈ ps, ∃ p2, flattenPolicyWith maps svcF p = .ok p2 := by
  intro ps
  induction ps with
  | nil => intro out _ p hp; cases hp
  | cons p rest ih =>
    intro out hok x hx
    rw [flattenGroupsWith] at hok
    rcases hp : flattenPolicyWith maps svcF p with e | p2
    · rw [hp] at hok; cases hok
    · rw [hp] at hok
      rcases hrest : flattenGroupsWith maps svcF rest with e | out2
      · rw [hrest] at hok; cases hok
      · rcases List.mem_cons.mp hx with hx | hx
        · subst hx; exact ⟨p2, hp⟩
        · exact ih out2 hrest x hx

/-- If a raw-name list flattens, each raw name flattens with a fresh
visit stack. -/
theorem flattenAddrNames_ok (maps : ParserMaps) :
    ∀ (names : List String) (r : List AddressObject), flattenAddrNames maps names = .ok r →
      ∀ n ∈ names, ∃ r2, flattenAddrGroup maps n [] = .ok r2 := by
  intro names
  induction names with
  | nil => intro r _ n hn; cases hn
  | cons n rest ih =>
    intro r hok x hx
    rw [flattenAddrNames] at hok
    rcases hn : flattenAddrGroup maps n [] with e | xs
    · rw [hn] at hok; cases hok
    · rw [hn] at hok
      rcases hrest : flattenAddrNames maps rest with e | ys
      · rw [hrest] at hok; cases hok
      · rcases List.mem_cons.mp hx with hx | hx
        · subst hx; exact ⟨xs, hn⟩
        · exact ih ys hrest x hx

/-- If a raw service-name list flattens, each raw name flattens. -/
theorem flattenSvcNames_ok (svcF : String → Except String (List ServiceObject)) :
    ∀ (names : List String) (r : List ServiceObject), flattenSvcNames svcF names = .ok r →
      ∀ n ∈ names, ∃ r2, svcF n = .ok r2 := by
  intro names
  induction names with
  | nil => intro r _ n hn; cases hn
  | cons n rest ih =>
    intro r hok x hx
    rw [flattenSvcNames] at hok
    rcases hn : svcF n with e | xs
    · rw [hn] at hok; cases hok
    · rw [hn] at hok
      rcases hrest : flattenSvcNames svcF rest with e | ys
      · rw [hrest] at hok; cases hok
      · rcases List.mem_cons.mp hx with hx | hx
        · subst hx; exact ⟨xs, hn⟩
        · exact ih ys hrest x hx

/-- If a policy flattens, each axis with a non-empty raw list flattens. -/
theorem flattenPolicyWith_ok (maps : ParserMaps)
    (svcF : String → Except String (List ServiceObject)) (p p2 : Policy)
    (hok : flattenPolicyWith maps svcF p = .ok p2) :
    (p.rawSrcAddrNames ≠ [] → ∃ r, flattenAddrNames maps p.rawSrcAddrNames = .ok r) ∧
    (p.rawDstAddrNames ≠ [] → ∃ r, flattenAddrNames maps p.rawDstAddrNames = .ok r) ∧
    (p.rawSvcNames ≠ [] → ∃ r, flattenSvcNames svcF p.rawSvcNames = .ok r) := by
  unfold flattenPolicyWith at hok
  rcases hsrc : (if p.rawSrcAddrNames.isEmpty then Except.ok p.srcAddrs
      else flattenAddrNames maps p.rawSrcAddrNames) with e | src
  · rw [hsrc] at hok; cases hok
  · rw [hsrc] at hok
    rcases hdst : (if p.rawDstAddrNames.isEmpty then Except.ok p.dstAddrs
        else flattenAddrNames maps p.rawDstAddrNames) with e | dst
    · rw [hdst] at hok; cases hok
    · rw [hdst] at hok
      rcases hsvc : (if p.rawSvcNames.isEmpty then Except.ok p.services
          else flattenSvcNames svcF p.rawSvcNames) with e | svcs
      · rw [hsvc] at hok; cases hok
      · refine ⟨fun hne => ?_, fun hne => ?_, fun hne => ?_⟩
        · rw [if_neg (by simpa using hne)] at hsrc; exact ⟨src, hsrc⟩
        · rw [if_neg (by simpa using hne)] at hdst; exact ⟨dst, hdst⟩
        · rw [if_neg (by simpa using hne)] at hsvc; exact ⟨svcs, hsvc⟩

/-- C7 (amended): a configuration whose address-group or service-group
references contain a cycle that is reachable from some policy's raw
member list through names that are not case-variants of the reserved
name `all` fails flattening in both providers: the flattener returns a
cycle error carrying the re-entered group name, so the parser produces
no flattened policy set.  (A cycle reachable only through a case-variant
of `all` is absorbed by the universal sentinel and not detected — see
the counterexample.) -/
theorem C7_cycle_detected (maps : ParserMaps) (reg : Registry) (policies : List Policy)
    (p : Policy) (n0 : String) (nodes : List String)
    (hp : p ∈ policies)
    (hall0 : eqFold n0 "all" = false)
    (halln : ∀ n ∈ nodes, eqFold n "all" = false)
    (hcyc : ¬ nodes.Nodup ∨ n0 ∈ nodes)
    (hcase : (IsWalk maps.addrGrps n0 nodes ∧
                (n0 ∈ p.rawSrcAddrNames ∨ n0 ∈ p.rawDstAddrNames)) ∨
             (IsWalk maps.svcGrps n0 nodes ∧ n0 ∈ p.rawSvcNames)) :
    (∃ e, fgFlattenGroups maps reg policies = .error e) ∧
    (∃ e, dbFlattenGroups maps reg policies = .error e) := by
  constructor
  · rcases hres : fgFlattenGroups maps reg policies with e | out
    · exact ⟨e, rfl⟩
    · exfalso
      obtain ⟨p2, hp2⟩ := flattenGroupsWith_ok maps _ policies out hres p hp
      have haxes := flattenPolicyWith_ok maps _ p p2 hp2
      rcases hcase with ⟨hwalk, hraw⟩ | ⟨hwalk, hraw⟩
      · have hok0 : ∃ r, flattenAddrGroup maps n0 [] = .ok r := by
          rcases hraw with hraw | hraw
          · obtain ⟨r, hr⟩ := haxes.1 (List.ne_nil_of_mem hraw)
            exact flattenAddrNames_ok maps _ r hr n0 hraw
          · obtain ⟨r, hr⟩ := haxes.2.1 (List.ne_nil_of_mem hraw)
            exact flattenAddrNames_ok maps _ r hr n0 hraw
        obtain ⟨e, he⟩ := flatten_cycle_error (flattenAddrGroup maps) maps.addrGrps
          (flattenAddrGroup_vis maps) (flattenAddrGroup_step maps)
          nodes n0 hall0 halln hwalk hcyc
        obtain ⟨r, hr⟩ := hok0
        rw [hr] at he; cases he
      · obtain ⟨r, hr⟩ := haxes.2.2 (List.ne_nil_of_mem hraw)
        obtain ⟨r2, hr2⟩ := flattenSvcNames_ok _ _ r hr n0 hraw
        obtain ⟨e, he⟩ := flatten_cycle_error (fun n v => fgFlattenSvcGroup maps reg n v)
          maps.svcGrps (fgFlattenSvcGroup_vis maps reg) (fgFlattenSvcGroup_step maps reg)
          nodes n0 hall0 halln hwalk hcyc
        rw [hr2] at he; cases he
  · rcases hres : dbFlattenGroups maps reg policies with e | out
    · exact ⟨e, rfl⟩
    · exfalso
      obtain ⟨p2, hp2⟩ := flattenGroupsWith_ok maps _ policies out hres p hp
      have haxes := flattenPolicyWith_ok maps _ p p2 hp2
      rcases hcase with ⟨hwalk, hraw⟩ | ⟨hwalk, hraw⟩
      · have hok0 : ∃ r, flattenAddrGroup maps n0 [] = .ok r := by
          rcases hraw with hraw | hraw
          · obtain ⟨r, hr⟩ := haxes.1 (List.ne_nil_of_mem hraw)
            exact flattenAddrNames_ok maps _ r hr n0 hraw
          · obtain ⟨r, hr⟩ := haxes.2.1 (List.ne_nil_of_mem hraw)
            exact flattenAddrNames_ok maps _ r hr n0 hraw
        obtain ⟨e, he⟩ := flatten_cycle_error (flattenAddrGroup maps) maps.addrGrps
          (flattenAddrGroup_vis maps) (flattenAddrGroup_step maps)
          nodes n0 hall0 halln hwalk hcyc
        obtain ⟨r, hr⟩ := hok0
        rw [hr] at he; cases he
      · obtain ⟨r, hr⟩ := haxes.2.2 (List.ne_nil_of_mem hraw)
        obtain ⟨r2, hr2⟩ := flattenSvcNames_ok _ _ r hr n0 hraw
        obtain ⟨e, he⟩ := flatten_cycle_error (fun n v => dbFlattenSvcGroup maps reg n v)
          maps.svcGrps (dbFlattenSvcGroup_vis maps reg) (dbFlattenSvcGroup_step maps reg)
          nodes n0 hall0 halln hwalk hcyc
        rw [hr2] at he; cases he

/-- The two-group address cycle `A = [B]`, `B = [A]` (scenario S8). -/
def twoCycleMaps : ParserMaps := ⟨[], [], [("A", ["B"]), ("B", ["A"])], []⟩

/-- A policy whose source axis references group `A`. -/
def polRefA : Policy := ⟨"9", 9, "", [], [], [], ["A"], [], [], "accept", true, ""⟩

/-- Witness for C7's amended theorem: the A/B cycle of scenario S8 makes
both providers fail construction. -/
theorem C7_witness :
    (∃ e, fgFlattenGroups twoCycleMaps specRegistry [polRefA] = .error e) ∧
    (∃ e, dbFlattenGroups twoCycleMaps specRegistry [polRefA] = .error e) := by
  refine C7_cycle_detected twoCycleMaps specRegistry [polRefA] polRefA "A" ["B", "A"]
    (by simp) (by decide) (by decide) (Or.inr (by simp)) (Or.inl ⟨?_, Or.inl (by simp [polRefA])⟩)
  refine ⟨⟨["B"], by decide, by decide⟩, ⟨["A"], by decide, by decide⟩, trivial⟩

/-- The self-referential group named `All` (a case-variant of the
reserved name). -/
def allCycleMaps : ParserMaps := ⟨[], [], [("All", ["All"])], []⟩

/-- A policy whose source axis references the group `All`. -/
def polRefAll : Policy := ⟨"9", 9, "", [], [], [], ["All"], [], [], "accept", true, ""⟩

/-- C7 counterexample: a reference cycle that is reachable from a raw
member list only through the name `All` — a case-variant of the reserved
name — is never entered: the flattener returns the universal sentinel
instead, construction succeeds, and no cycle error is reported. -/
theorem C7_counterexample :
    IsWalk allCycleMaps.addrGrps "All" ["All"] ∧ "All" ∈ polRefAll.rawSrcAddrNames ∧
    ("All" ∈ ["All"]) ∧
    fgFlattenGroups allCycleMaps specRegistry [polRefAll] =
      .ok [{ polRefAll with srcAddrs := [allAddr] }] := by
  refine ⟨⟨⟨["All"], by decide, by decide⟩, trivial⟩, by simp [polRefAll], by simp, ?_⟩
  simp [fgFlattenGroups, flattenGroupsWith, flattenPolicyWith, flattenAddrNames,
    flattenSvcNames, flattenAddrGroup_eq, polRefAll, eqFold, asciiLower, asciiLowerChar,
    allAddr, Except.map]

/-! ## Claim C4: totality of evaluation -/

/-- A byte slice that `To16` can convert (4 or 16 bytes). -/
def goodIP (ip : GoIP) : Bool := ip.len == 4 || ip.len == 16

/-- An address object whose stored range endpoints, when present, are
convertible byte slices (as produced by `net.ParseIP`). -/
def wfAddrIPs (a : AddressObject) : Bool :=
  a.startIP.all goodIP && a.endIP.all goodIP

/-- An evaluator whose policies' address axes carry convertible range
endpoints (true of every parser-built policy set). -/
def wfEvaluator (e : Evaluator) : Bool :=
  e.policies.all (fun p => p.srcAddrs.all wfAddrIPs && p.dstAddrs.all wfAddrIPs)

theorem to16_isSome_of_goodIP (ip : GoIP) (h : goodIP ip = true) :
    ∃ v, to16 ip = some v := by
  unfold goodIP at h
  unfold to16
  rcases Bool.or_eq_true_iff.mp h with h4 | h16
  · have h4' : ip.len = 4 := by simpa using h4
    exact ⟨⟨16, v4inv6 + ip.val⟩, by simp [h4']⟩
  · have h16' : ip.len = 16 := by simpa using h16
    by_cases hl : ip.len = 4
    · exact ⟨⟨16, v4inv6 + ip.val⟩, by simp [hl]⟩
    · exact ⟨ip, by simp [hl, h16']⟩

theorem bytesCompare_isSome (a b : GoIP) (ha : goodIP a = true) (hb : goodIP b = true) :
    ∃ c, bytesCompare a b = some c := by
  obtain ⟨va, hva⟩ := to16_isSome_of_goodIP a ha
  obtain ⟨vb, hvb⟩ := to16_isSome_of_goodIP b hb
  refine ⟨compare va.val vb.val, ?_⟩
  simp [bytesCompare, hva, hvb]

theorem matchAddr_total (addrs : List AddressObject) (ip : GoIP)
    (haddrs : addrs.all wfAddrIPs = true) (hip : goodIP ip = true) :
    ∃ b, matchAddr addrs ip = some b := by
  induction addrs with
  | nil => exact ⟨false, rfl⟩
  | cons a rest ih =>
    have hwf : wfAddrIPs a = true := by
      have := List.all_eq_true.mp haddrs a (by simp)
      exact this
    have hrest : rest.all wfAddrIPs = true :=
      List.all_eq_true.mpr (fun x hx => List.all_eq_true.mp haddrs x (by simp [hx]))
    obtain ⟨brest, hbrest⟩ := ih hrest
    by_cases hname : a.name = "all"
    · exact ⟨true, by simp [matchAddr, hname]⟩
    · by_cases hmask : a.type = "ipmask"
      · rcases hn : a.ipnet with _ | n
        · exact ⟨brest, by simp [matchAddr, hname, hmask, hn, hbrest]⟩
        · by_cases hc : goContains n ip = true
          · exact ⟨true, by simp [matchAddr, hname, hmask, hn, hc]⟩
          · exact ⟨brest, by simp [matchAddr, hname, hmask, hn, hc, hbrest]⟩
      · by_cases hrange : a.type = "iprange"
        · rcases hs : a.startIP with _ | s
          · exact ⟨brest, by simp [matchAddr, hname, hmask, hrange, hs, hbrest]⟩
          · rcases he : a.endIP with _ | e
            · exact ⟨brest, by simp [matchAddr, hname, hmask, hrange, hs, he, hbrest]⟩
            · have hgs : goodIP s = true := by
                have := (Bool.and_eq_true_iff.mp hwf).1
                rw [hs] at this
                simpa [Option.all] using this
              have hge : goodIP e = true := by
                have := (Bool.and_eq_true_iff.mp hwf).2
                rw [he] at this
                simpa [Option.all] using this
              obtain ⟨c1, hc1⟩ := bytesCompare_isSome ip s hip hgs
              obtain ⟨c2, hc2⟩ := bytesCompare_isSome ip e hip hge
              by_cases hlt : c1 = Ordering.lt
              · exact ⟨brest, by
                  simp [matchAddr, hname, hmask, hrange, hs, he, hc1, hlt, hbrest]⟩
              · by_cases hgt : c2 = Ordering.gt
                · exact ⟨brest, by
                    simp [matchAddr, hname, hmask, hrange, hs, he, hc1, hlt, hc2, hgt, hbrest]⟩
                · exact ⟨true, by
                    simp [matchAddr, hname, hmask, hrange, hs, he, hc1, hlt, hc2, hgt]⟩
        · exact ⟨brest, by simp [matchAddr, hname, hmask, hrange, hbrest]⟩

/-- C4 (amended): evaluation is total — returning a decision with no
runtime error — for every evaluator whose address objects carry 4- or
16-byte range endpoints (true of all parser-built objects) and every
task whose IP fields are 4- or 16-byte slices (true of all
producer-emitted tasks); the byte-wise IP comparison and the CIDR
containment check are then always applied on their defined domains.
Without the task-side condition a nil IP reaching an `iprange` object
panics inside `bytesCompare` — see the counterexample. -/
theorem C4_evaluation_total (e : Evaluator) (t : Task)
    (hwf : wfEvaluator e = true) (hsrc : goodIP t.srcIP = true) (hdst : goodIP t.dstIP = true) :
    ∃ res, Evaluate e t = some res := by
  unfold Evaluate
  have hps := hwf
  unfold wfEvaluator at hps
  revert hps
  induction e.policies with
  | nil => exact fun _ => ⟨implicitDenyResult t, rfl⟩
  | cons p rest ih =>
    intro hps
    have hp : p.srcAddrs.all wfAddrIPs = true ∧ p.dstAddrs.all wfAddrIPs = true := by
      have := List.all_eq_true.mp hps p (by simp)
      exact Bool.and_eq_true_iff.mp this
    have hrest : rest.all (fun p => p.srcAddrs.all wfAddrIPs && p.dstAddrs.all wfAddrIPs) = true :=
      List.all_eq_true.mpr (fun x hx => List.all_eq_true.mp hps x (by simp [hx]))
    obtain ⟨resRest, hresRest⟩ := ih hrest
    by_cases hen : p.enabled = true
    · obtain ⟨bs, hbs⟩ := matchAddr_total p.srcAddrs t.srcIP hp.1 hsrc
      obtain ⟨bd, hbd⟩ := matchAddr_total p.dstAddrs t.dstIP hp.2 hdst
      have hm : ∃ b, matchesPolicy p t = some b := by
        unfold matchesPolicy
        rw [hbs]
        cases bs
        · exact ⟨false, rfl⟩
        · rw [hbd]
          cases bd
          · exact ⟨false, rfl⟩
          · exact ⟨matchSvc p.services t, rfl⟩
      obtain ⟨b, hb⟩ := hm
      cases b
      · exact ⟨resRest, by simp [evalLoop, hen, hb, hresRest]⟩
      · exact ⟨matchResult p t, by simp [evalLoop, hen, hb]⟩
    · exact ⟨resRest, by simp [evalLoop, hen, hresRest]⟩

/-- An `iprange` address object covering 10.0.0.1 – 10.0.0.10. -/
def iprangeAddr : AddressObject :=
  ⟨"rng", "iprange", none, some ⟨16, v4inv6 + 0x0a000001⟩, some ⟨16, v4inv6 + 0x0a00000a⟩, ""⟩

/-- An enabled accept policy whose source axis is the `iprange` object. -/
def polIprange : Policy :=
  ⟨"5", 5, "rng-policy", [iprangeAddr], [allAddr], [allSvc], [], [], [], "accept", true, ""⟩

/-- Witness for C4's amended theorem at a concrete evaluator and task. -/
theorem C4_witness :
    ∃ res, Evaluate ⟨[polIprange]⟩ task80 = some res :=
  C4_evaluation_total ⟨[polIprange]⟩ task80 (by decide) (by decide) (by decide)

/-- C4 counterexample: with no precondition on the task's IP fields the
claim fails — a task whose source IP is the nil slice reaches the
byte-wise comparison of an `iprange` object outside its defined domain
(`To16` returns nil and Go indexes it), a runtime panic, modelled by
`Evaluate` returning `none`. -/
theorem C4_counterexample :
    Evaluate ⟨[polIprange]⟩ ⟨⟨0, 0⟩, "", ⟨4, 0xc0a80114⟩, "", 80, "tcp", ""⟩ = none := by
  decide

/-! ## Claim C10: CIDR size -/

theorem find?_range' (p : Nat → Bool) :
    ∀ (len s o : Nat), s ≤ o → o < s + len → p o = true →
      (∀ k, s ≤ k → k < o → p k = false) → (List.range' s len).find? p = some o := by
  intro len
  induction len with
  | zero => intro s o hso ho _ _; omega
  | succ n ih =>
    intro s o hso ho hp hlt
    have hr : List.range' s (n + 1) = s :: List.range' (s + 1) n := by
      simp [List.range'_succ]
    rw [hr]
    by_cases hs : s = o
    · subst hs
      simp [List.find?, hp]
    · have hps : p s = false := hlt s le_rfl (by omega)
      simp only [List.find?, hps]
      exact ih (s + 1) o (by omega) (by omega) hp (fun k hk1 hk2 => hlt k (by omega) hk2)

/-- The canonical ones-then-zeros mask value `o` ones in `b` bits is
`2^b - 2^(b-o)`, strictly increasing in `o`. -/
theorem canonical_mask_val (b o : Nat) (ho : o ≤ b) :
    (2 ^ o - 1) * 2 ^ (b - o) = 2 ^ b - 2 ^ (b - o) := by
  have h1 : (1 : Nat) ≤ 2 ^ o := Nat.one_le_two_pow
  have h2 : 2 ^ o * 2 ^ (b - o) = 2 ^ b := by
    rw [← pow_add]
    congr 1
    omega
  calc (2 ^ o - 1) * 2 ^ (b - o) = 2 ^ o * 2 ^ (b - o) - 1 * 2 ^ (b - o) :=
        Nat.sub_mul _ _ _
    _ = 2 ^ b - 2 ^ (b - o) := by rw [h2, one_mul]

/-- `Mask.Size` on a canonical mask recovers the prefix length. -/
theorem maskSize_canonical (l o : Nat) (ho : o ≤ 8 * l) :
    maskSize ⟨l, (2 ^ o - 1) * 2 ^ (8 * l - o)⟩ = (o, 8 * l) := by
  unfold maskSize
  have hfind : (List.range (8 * l + 1)).find?
      (fun k => decide ((2 ^ o - 1) * 2 ^ (8 * l - o) = (2 ^ k - 1) * 2 ^ (8 * l - k))) =
      some o := by
    rw [List.range_eq_range']
    refine find?_range' _ (8 * l + 1) 0 o (Nat.zero_le o) (by omega) (by simp) ?_
    intro k _ hk
    have hkb : k ≤ 8 * l := by omega
    have hlt : (2 ^ k - 1) * 2 ^ (8 * l - k) < (2 ^ o - 1) * 2 ^ (8 * l - o) := by
      rw [canonical_mask_val _ _ hkb, canonical_mask_val _ _ ho]
      have hbk : 2 ^ (8 * l - o) < 2 ^ (8 * l - k) := by
        apply Nat.pow_lt_pow_right (by omega)
        omega
      have hle1 : 2 ^ (8 * l - k) ≤ 2 ^ (8 * l) := Nat.pow_le_pow_right (by omega) (by omega)
      omega
    simp only [decide_eq_false_iff_not]
    omega
  simp only [hfind]

/-- C10 (amended): `CIDRSize` computes `2^(bits − ones)` in Go `uint64`
arithmetic, i.e. reduced mod `2^64`: the result is exactly
`2^(bits − ones)` when `bits − ones ≤ 63` (every IPv4 network, and IPv6
prefixes `p ≥ 65`), and `0` when `bits − ones ≥ 64` (IPv6 prefixes
`p ≤ 64`), not `2^(128 − p)` as claimed. -/
theorem C10_cidr_size (l o : Nat) (ip : GoIP) (ho : o ≤ 8 * l) :
    (8 * l - o < 64 → CIDRSize ⟨ip, ⟨l, (2 ^ o - 1) * 2 ^ (8 * l - o)⟩⟩ = 2 ^ (8 * l - o)) ∧
    (64 ≤ 8 * l - o → CIDRSize ⟨ip, ⟨l, (2 ^ o - 1) * 2 ^ (8 * l - o)⟩⟩ = 0) := by
  have hms := maskSize_canonical l o ho
  have hsize : CIDRSize ⟨ip, ⟨l, (2 ^ o - 1) * 2 ^ (8 * l - o)⟩⟩ =
      2 ^ (8 * l - o) % 2 ^ 64 := by
    unfold CIDRSize
    rw [hms]
    simp [Nat.shiftLeft_eq]
  constructor
  · intro hlt
    rw [hsize]
    exact Nat.mod_eq_of_lt (Nat.pow_lt_pow_right (by omega) hlt)
  · intro hge
    rw [hsize]
    have : 2 ^ (8 * l - o) = 2 ^ 64 * 2 ^ (8 * l - o - 64) := by
      rw [← pow_add]
      congr 1
      omega
    rw [this]
    exact Nat.mul_mod_right _ _

/-- Witness for C10's amended theorem: a /24 IPv4 network has 256
addresses; a /0 IPv6 network yields 0 (the wrapped value), not 2^128. -/
theorem C10_witness :
    CIDRSize ⟨⟨4, 0x0a000000⟩, ⟨4, (2 ^ 24 - 1) * 2 ^ 8⟩⟩ = 256 ∧
    CIDRSize ⟨⟨16, 0⟩, ⟨16, (2 ^ 0 - 1) * 2 ^ 128⟩⟩ = 0 := by
  constructor
  · have h := (C10_cidr_size 4 24 ⟨4, 0x0a000000⟩ (by omega)).1 (by omega)
    simpa using h
  · have h := (C10_cidr_size 16 0 ⟨16, 0⟩ (by omega)).2 (by omega)
    simpa using h

/-- C10 counterexample: the all-zero 16-byte mask is the canonical /0
IPv6 mask, but `CIDRSize` returns 0 — the `uint64` shift `1 << 128`
wraps — while the claim demands `2^(128 − 0)`. -/
theorem C10_counterexample :
    CIDRSize ⟨⟨16, 0⟩, ⟨16, 0⟩⟩ = 0 ∧ (2 : Nat) ^ 128 ≠ 0 := by
  constructor
  · decide
  · positivity

/-! ## Claim C8: service-name fallback resolution -/

/-- C8 counterexample: the FortiGate flattener has no ad-hoc
`proto_port` stage.  The name `tcp_8080` — no object, no group, not in
the registry — is dropped silently by the FortiGate provider (no
entries), while the database provider resolves it to `(tcp, 8080, 8080)`;
the claim requires every provider to try the ad-hoc syntax. -/
theorem C8_counterexample :
    GetService specRegistry "tcp_8080" = none ∧
    fgFlattenSvcGroup emptyMaps specRegistry "tcp_8080" [] = .ok [] ∧
    dbFlattenSvcGroup emptyMaps specRegistry "tcp_8080" [] =
      .ok [⟨"tcp_8080", "tcp", 8080, 8080⟩] := by
  refine ⟨by decide, ?_, ?_⟩
  · rw [fgFlattenSvcGroup_eq]
    simp only [emptyMaps, assocFind, eqFold, asciiLower, asciiLowerChar]
    rfl
  · rw [dbFlattenSvcGroup_eq]
    simp only [emptyMaps, assocFind, eqFold, asciiLower, asciiLowerChar]
    rfl

/-- C8 (amended): only the database-backed flattener implements the full
fallback chain.  For a raw service name that is not the reserved `all`,
not on the visit stack, and resolves to neither a direct object nor a
group: both providers first try the well-known registry; on a registry
miss the FortiGate provider drops the name silently (no entries, no
error), while the database provider falls back to the ad-hoc syntax,
where `proto_<port>` (proto in {tcp, udp}, case-insensitive) yields
`(proto, port, port)` and `proto_<start>-<end>` yields
`(proto, start, end)`. -/
theorem C8_service_fallbacks (maps : ParserMaps) (reg : Registry) (name : String)
    (visited : List String)
    (hall : eqFold name "all" = false)
    (hvis : visited.contains name = false)
    (hobj : assocFind maps.serviceObjects name = none)
    (hgrp : assocFind maps.svcGrps name = none) :
    (GetService reg name = none →
      fgFlattenSvcGroup maps reg name visited = .ok [] ∧
      dbFlattenSvcGroup maps reg name visited = .ok (dbAdhocService name)) ∧
    (∀ wks, GetService reg name = some wks →
      fgFlattenSvcGroup maps reg name visited =
        .ok (wks.map (fun wk => ⟨name, wk.protocol, wk.startPort, wk.endPort⟩)) ∧
      dbFlattenSvcGroup maps reg name visited =
        .ok (wks.map (fun wk => ⟨name, wk.protocol, wk.startPort, wk.startPort⟩))) ∧
    (∀ protoStr portStr v, splitOnChar '_' name = [protoStr, portStr] →
      (asciiLower protoStr = "tcp" ∨ asciiLower protoStr = "udp") →
      splitOnChar '-' portStr = [portStr] → goAtoi portStr = some v →
      dbAdhocService name = [⟨name, asciiLower protoStr, v, v⟩]) ∧
    (∀ protoStr portStr a b va vb, splitOnChar '_' name = [protoStr, portStr] →
      (asciiLower protoStr = "tcp" ∨ asciiLower protoStr = "udp") →
      splitOnChar '-' portStr = [a, b] → goAtoi a = some va → goAtoi b = some vb →
      dbAdhocService name = [⟨name, asciiLower protoStr, va, vb⟩]) := by
  have hnvis : ¬ visited.contains name = true := by simp only [Bool.not_eq_true]; exact hvis
  refine ⟨?_, ?_, ?_, ?_⟩
  · intro hwk
    constructor
    · rw [fgFlattenSvcGroup_eq, hall]
      rw [if_neg (show ¬(false = true) by simp)]
      rw [if_neg hnvis]
      simp [hgrp, hobj, hwk, hvis]
    · rw [dbFlattenSvcGroup_eq, hall]
      rw [if_neg (show ¬(false = true) by simp)]
      rw [if_neg hnvis]
      simp [hgrp, hobj, hwk, hvis]
  · intro wks hwk
    constructor
    · rw [fgFlattenSvcGroup_eq, hall]
      rw [if_neg (show ¬(false = true) by simp)]
      rw [if_neg hnvis]
      simp [hgrp, hobj, hwk, hvis]
    · rw [dbFlattenSvcGroup_eq, hall]
      rw [if_neg (show ¬(false = true) by simp)]
      rw [if_neg hnvis]
      simp [hgrp, hobj, hwk, hvis]
  · intro protoStr portStr v hsplit hproto hdash hatoi
    unfold dbAdhocService
    simp only [hsplit, hdash, hatoi]
    rw [if_pos hproto]
  · intro protoStr portStr a b va vb hsplit hproto hdash hatoia hatoib
    unfold dbAdhocService
    simp only [hsplit, hdash, hatoia, hatoib]
    rw [if_pos hproto]

/-- Witness for C8's amended theorem at concrete names: `udp_53` and
`tcp_8001-8004` resolve through the database provider's ad-hoc stage. -/
theorem C8_witness :
    dbFlattenSvcGroup emptyMaps specRegistry "udp_53" [] = .ok (dbAdhocService "udp_53") ∧
    dbAdhocService "udp_53" = [⟨"udp_53", "udp", 53, 53⟩] ∧
    dbAdhocService "tcp_8001-8004" = [⟨"tcp_8001-8004", "tcp", 8001, 8004⟩] ∧
    fgFlattenSvcGroup emptyMaps specRegistry "udp_53" [] = .ok [] := by
  have h := C8_service_fallbacks emptyMaps specRegistry "udp_53" [] (by decide) (by decide)
    (by decide) (by decide)
  have h2 := C8_service_fallbacks emptyMaps specRegistry "tcp_8001-8004" [] (by decide)
    (by decide) (by decide) (by decide)
  refine ⟨(h.1 (by decide)).2, ?_, ?_, (h.1 (by decide)).1⟩
  · have := h.2.2.1 "udp" "53" 53 (by decide) (Or.inr (by decide)) (by decide) (by decide)
    simpa using this
  · have := h2.2.2.2 "tcp" "8001-8004" "8001" "8004" 8001 8004 (by decide)
      (Or.inl (by decide)) (by decide) (by decide) (by decide)
    simpa using this

/-! ## Claim C3: precheck soundness

The soundness proof works for IPv4-pure configurations: every address
object and queried CIDR is an IPv4 network with a canonical mask or an
IPv4-family range endpoint.  (Mixed-family configurations break the
claim: `addrRelation` filters by address family while the per-host
matcher compares raw 16-byte values — see the counterexample.)

First, numeric facts about canonical masks and the 16-byte encodings. -/

theorem compare_ne_lt {a b : Nat} (h : compare a b ≠ Ordering.lt) : b ≤ a := by
  by_contra hc
  exact h (Nat.compare_eq_lt.mpr (by omega))

theorem compare_ne_gt {a b : Nat} (h : compare a b ≠ Ordering.gt) : a ≤ b := by
  by_contra hc
  exact h (Nat.compare_eq_gt.mpr (by omega))

theorem compare_of_le_le {a b c : Nat} (h1 : b ≤ a) (h2 : a ≤ c) :
    compare a b ≠ Ordering.lt ∧ compare a c ≠ Ordering.gt := by
  constructor
  · intro h
    rw [Nat.compare_eq_lt] at h
    omega
  · intro h
    rw [Nat.compare_eq_gt] at h
    omega

/-- AND with a canonical ones-then-zeros mask clears the low `k` bits. -/
theorem land_canonical (b k v : Nat) (hk : k ≤ b) (hv : v < 2 ^ b) :
    v &&& (2 ^ b - 2 ^ k) = v / 2 ^ k * 2 ^ k := by
  have hmask : 2 ^ b - 2 ^ k = 2 ^ k * (2 ^ (b - k) - 1) := by
    rw [Nat.mul_sub_one, ← pow_add, Nat.add_sub_cancel' hk]
  apply Nat.eq_of_testBit_eq
  intro i
  rw [Nat.testBit_land, hmask, Nat.testBit_mul_pow_two]
  have hdiv : v / 2 ^ k * 2 ^ k = 2 ^ k * (v / 2 ^ k) := by ring
  rw [hdiv, Nat.testBit_mul_pow_two, ← Nat.shiftRight_eq_div_pow, Nat.testBit_shiftRight]
  by_cases hik : k ≤ i
  · simp only [ge_iff_le, hik, Nat.testBit_two_pow_sub_one]
    by_cases hib : i < b
    · simp [Nat.add_sub_cancel' hik, show i - k < b - k by omega]
    · have hvb : v.testBit (k + (i - k)) = false := by
        apply Nat.testBit_lt_two_pow
        calc v < 2 ^ b := hv
          _ ≤ 2 ^ (k + (i - k)) := Nat.pow_le_pow_right (by omega) (by omega)
      simp [hvb, show ¬(i - k < b - k) by omega]
  · simp [hik]

/-- XOR of the full mask with a canonical mask is the low-bits mask. -/
theorem xor_canonical (b k : Nat) (hk : k ≤ b) :
    (2 ^ b - 1) ^^^ (2 ^ b - 2 ^ k) = 2 ^ k - 1 := by
  have hmask : 2 ^ b - 2 ^ k = 2 ^ k * (2 ^ (b - k) - 1) := by
    rw [Nat.mul_sub_one, ← pow_add, Nat.add_sub_cancel' hk]
  apply Nat.eq_of_testBit_eq
  intro i
  rw [Nat.testBit_xor, Nat.testBit_two_pow_sub_one, hmask, Nat.testBit_mul_pow_two,
    Nat.testBit_two_pow_sub_one, Nat.testBit_two_pow_sub_one]
  by_cases hik : k ≤ i
  · by_cases hib : i < b
    · simp [hik, hib, show i - k < b - k by omega, show ¬(i < k) by omega]
    · simp [hik, show ¬(i < b) by omega, show ¬(i - k < b - k) by omega, show ¬(i < k) by omega]
  · have hib : i < b := by omega
    simp [hik, hib, show i < k by omega]

/-- OR of a `2^k`-aligned value with a value below `2^k` is addition. -/
theorem lor_eq_add (k a c : Nat) (ha : a % 2 ^ k = 0) (hc : c < 2 ^ k) :
    a ||| c = a + c := by
  have h2 : a = 2 ^ k * (a / 2 ^ k) := by
    conv_lhs => rw [← Nat.div_add_mod a (2 ^ k)]
    omega
  apply Nat.eq_of_testBit_eq
  intro i
  rw [Nat.testBit_lor]
  have hsum : (a + c).testBit i = if i < k then c.testBit i else (a / 2 ^ k).testBit (i - k) := by
    conv_lhs => rw [h2]
    rw [Nat.testBit_mul_pow_two_add _ hc]
  rw [hsum]
  by_cases hik : i < k
  · have hca : a.testBit i = false := by
      conv_lhs => rw [h2]
      rw [Nat.testBit_mul_pow_two]
      simp [show ¬(k ≤ i) by omega]
    simp [hca, hik]
  · have hcc : c.testBit i = false :=
      Nat.testBit_lt_two_pow (lt_of_lt_of_le hc (Nat.pow_le_pow_right (by omega) (by omega)))
    have hca : a.testBit i = (a / 2 ^ k).testBit (i - k) := by
      conv_lhs => rw [h2]
      rw [Nat.testBit_mul_pow_two]
      simp [show k ≤ i by omega]
    simp [hcc, hca, hik]

/-- Membership in the canonical-mask equivalence class is interval membership. -/
theorem mask_interval (k s v : Nat) (hs : s % 2 ^ k = 0) :
    (s = v / 2 ^ k * 2 ^ k) ↔ (s ≤ v ∧ v ≤ s + (2 ^ k - 1)) := by
  have hpos : 0 < 2 ^ k := Nat.pos_pow_of_pos k (by omega)
  have hmod := Nat.div_add_mod v (2 ^ k)
  have hmlt := Nat.mod_lt v hpos
  have hbr : v / 2 ^ k * 2 ^ k = 2 ^ k * (v / 2 ^ k) := Nat.mul_comm _ _
  constructor
  · intro h
    omega
  · intro ⟨h1, h2⟩
    have hsmod := Nat.div_add_mod s (2 ^ k)
    have hbrs : s / 2 ^ k * 2 ^ k = 2 ^ k * (s / 2 ^ k) := Nat.mul_comm _ _
    have hsdiv : s / 2 ^ k * 2 ^ k = s := by omega
    have hdd : v / 2 ^ k = s / 2 ^ k := by
      apply Nat.le_antisymm
      · have h2' : v / 2 ^ k ≤ (s + (2 ^ k - 1)) / 2 ^ k := Nat.div_le_div_right h2
        have hs1 : (s + (2 ^ k - 1)) / 2 ^ k = s / 2 ^ k := by
          rw [Nat.add_div_eq_of_add_mod_lt]
          · have hz : (2 ^ k - 1) / 2 ^ k = 0 := Nat.div_eq_of_lt (by omega)
            omega
          · have hm : (2 ^ k - 1) % 2 ^ k = 2 ^ k - 1 := Nat.mod_eq_of_lt (by omega)
            omega
        omega
      · exact Nat.div_le_div_right h1
    rw [hdd, hsdiv]

/-- A canonical 4-byte IPv4 mask (ones followed by zeros). -/
def canonicalMask32 (m : GoIP) : Bool :=
  m.len == 4 && (List.range 33).any (fun o => m.val == 2 ^ 32 - 2 ^ (32 - o))

/-- An IPv4 network: 4-byte ip and canonical 4-byte mask. -/
def v4netB (n : GoIPNet) : Bool :=
  n.ip.len == 4 && decide (n.ip.val < 2 ^ 32) && canonicalMask32 n.mask

/-- An IPv4-family ip value: a 4-byte slice or a v4-mapped 16-byte slice
(the two shapes `net.ParseIP` produces for IPv4 text). -/
def v4ipB (ip : GoIP) : Bool :=
  (ip.len == 4 && decide (ip.val < 2 ^ 32)) ||
    (ip.len == 16 && decide (v4inv6 ≤ ip.val ∧ ip.val < v4inv6 + 2 ^ 32))

/-- An IPv4-pure address object. -/
def v4AddrB (a : AddressObject) : Bool :=
  (match a.ipnet with | some n => v4netB n | none => true) &&
  (match a.startIP with | some s => v4ipB s | none => true) &&
  (match a.endIP with | some e => v4ipB e | none => true)

/-- An IPv4-pure evaluator. -/
def v4EvaluatorB (e : Evaluator) : Bool :=
  e.policies.all (fun p => p.srcAddrs.all v4AddrB && p.dstAddrs.all v4AddrB)

/-- The canonical 16-byte value of an IPv4-family ip. -/
def canonV (ip : GoIP) : Nat := if ip.len = 4 then v4inv6 + ip.val else ip.val

theorem v4netB_elim (C : GoIPNet) (h : v4netB C = true) :
    ∃ k, k ≤ 32 ∧ C.ip.len = 4 ∧ C.ip.val < 2 ^ 32 ∧ C.mask.len = 4 ∧
      C.mask.val = 2 ^ 32 - 2 ^ k := by
  unfold v4netB canonicalMask32 at h
  simp only [Bool.and_eq_true, beq_iff_eq, decide_eq_true_eq, List.any_eq_true] at h
  obtain ⟨⟨hiplen, hipval⟩, hmlen, o, ho, hoval⟩ := h
  refine ⟨32 - o, by omega, hiplen, hipval, hmlen, by simpa using hoval⟩

theorem to16_len4 (ip : GoIP) (h : ip.len = 4) :
    to16 ip = some ⟨16, v4inv6 + ip.val⟩ := by
  simp [to16, h]

theorem v4ip_to16 (ip : GoIP) (h : v4ipB ip = true) :
    to16 ip = some ⟨16, canonV ip⟩ ∧ v4inv6 ≤ canonV ip ∧ canonV ip < v4inv6 + 2 ^ 32 := by
  unfold v4ipB at h
  simp only [Bool.or_eq_true, Bool.and_eq_true, beq_iff_eq, decide_eq_true_eq] at h
  rcases h with ⟨h4, hv⟩ | ⟨h16, hv⟩
  · rw [to16_len4 ip h4]
    unfold canonV
    rw [if_pos h4]
    exact ⟨rfl, by omega, by omega⟩
  · have hn4 : ¬ ip.len = 4 := by omega
    unfold canonV
    rw [if_neg hn4]
    refine ⟨?_, hv.1, hv.2⟩
    obtain ⟨l, v⟩ := ip
    simp only at h16 hn4
    subst h16
    simp [to16]

theorem to4_mapped_isSome (x : Nat) (h1 : v4inv6 ≤ x) (h2 : x < v4inv6 + 2 ^ 32) :
    (to4 ⟨16, x⟩).isSome = true := by
  have hdiv : x / 2 ^ 32 = 0xffff := by
    have := Nat.div_add_mod x (2 ^ 32)
    have hlt := Nat.mod_lt x (show 0 < 2 ^ 32 by norm_num)
    have hup : x / 2 ^ 32 ≤ 0xffff := by
      by_contra hc
      have : 0x10000 * 2 ^ 32 ≤ 2 ^ 32 * (x / 2 ^ 32) := by
        have : 0x10000 ≤ x / 2 ^ 32 := by omega
        calc (0x10000 : Nat) * 2 ^ 32 = 2 ^ 32 * 0x10000 := Nat.mul_comm _ _
          _ ≤ 2 ^ 32 * (x / 2 ^ 32) := Nat.mul_le_mul_left _ this
      have hx : v4inv6 + 2 ^ 32 ≤ x := by
        unfold v4inv6
        omega
      omega
    have hdown : 0xffff ≤ x / 2 ^ 32 := by
      by_contra hc
      have : 2 ^ 32 * (x / 2 ^ 32) + 2 ^ 32 ≤ 2 ^ 32 * 0xffff := by
        have hle : x / 2 ^ 32 + 1 ≤ 0xffff := by omega
        calc 2 ^ 32 * (x / 2 ^ 32) + 2 ^ 32 = 2 ^ 32 * (x / 2 ^ 32 + 1) := by ring
          _ ≤ 2 ^ 32 * 0xffff := Nat.mul_le_mul_left _ hle
      have : x < v4inv6 := by
        unfold v4inv6
        omega
      omega
    omega
  have hdiv2 : x / 4294967296 = 65535 := by
    have hpow : (2 : Nat) ^ 32 = 4294967296 := by norm_num
    rw [← hpow]
    exact hdiv
  simp [to4, hdiv, hdiv2]

/-- The 16-byte range that `cidrRange` computes for an IPv4 network. -/
theorem v4net_cidrRange (C : GoIPNet) (k : Nat) (hk : k ≤ 32)
    (hiplen : C.ip.len = 4) (hipval : C.ip.val < 2 ^ 32)
    (hmlen : C.mask.len = 4) (hmval : C.mask.val = 2 ^ 32 - 2 ^ k) :
    cidrRange C = some (some ⟨16, v4inv6 + C.ip.val / 2 ^ k * 2 ^ k⟩,
      some ⟨16, v4inv6 + C.ip.val / 2 ^ k * 2 ^ k + (2 ^ k - 1)⟩) := by
  have hdivmap : (v4inv6 + C.ip.val) / 2 ^ 32 = 0xffff := by
    unfold v4inv6
    rw [show (0xffff : Nat) * 2 ^ 32 = 2 ^ 32 * 0xffff from Nat.mul_comm _ _,
      Nat.mul_add_div (by norm_num)]
    rw [Nat.div_eq_of_lt hipval]
  have hmodmap : (v4inv6 + C.ip.val) % 2 ^ 32 = C.ip.val := by
    unfold v4inv6
    rw [show (0xffff : Nat) * 2 ^ 32 = 2 ^ 32 * 0xffff from Nat.mul_comm _ _, Nat.mul_add_mod]
    exact Nat.mod_eq_of_lt hipval
  unfold cidrRange
  rw [to16_len4 C.ip hiplen]
  simp only [hmlen, show (4 : Nat) ≠ 0 by omega, if_false]
  have hgm : goMask ⟨16, v4inv6 + C.ip.val⟩ C.mask =
      some ⟨4, C.ip.val &&& C.mask.val⟩ := by
    unfold goMask
    norm_num at hdivmap hmodmap
    norm_num [hmlen, hmodmap, hdivmap]
  rw [hgm]
  have hland : C.ip.val &&& C.mask.val = C.ip.val / 2 ^ k * 2 ^ k := by
    rw [hmval]
    exact land_canonical 32 k C.ip.val hk hipval
  have hsmall : C.ip.val / 2 ^ k * 2 ^ k < 2 ^ 32 := by
    have := Nat.div_add_mod C.ip.val (2 ^ k)
    have hbr : C.ip.val / 2 ^ k * 2 ^ k = 2 ^ k * (C.ip.val / 2 ^ k) := Nat.mul_comm _ _
    omega
  have hxor : (2 ^ 32 - 1) ^^^ C.mask.val = 2 ^ k - 1 := by
    rw [hmval]
    exact xor_canonical 32 k hk
  have hlor : (v4inv6 + C.ip.val / 2 ^ k * 2 ^ k) ||| (2 ^ k - 1) =
      v4inv6 + C.ip.val / 2 ^ k * 2 ^ k + (2 ^ k - 1) := by
    apply lor_eq_add k
    · have hdvd1 : (2 ^ k : Nat) ∣ v4inv6 := by
        unfold v4inv6
        exact Dvd.dvd.mul_left (pow_dvd_pow 2 hk) 0xffff
      have hdvd2 : (2 ^ k : Nat) ∣ C.ip.val / 2 ^ k * 2 ^ k :=
        Dvd.dvd.mul_left (dvd_refl _) _
      exact Nat.mod_eq_zero_of_dvd (Dvd.dvd.add hdvd1 hdvd2)
    · have h1 : (1 : Nat) ≤ 2 ^ k := Nat.one_le_two_pow
      omega
  simp only [Option.bind, hland]
  rw [to16_len4 ⟨4, C.ip.val / 2 ^ k * 2 ^ k⟩ rfl]
  have hxor2 : (4294967295 : Nat) ^^^ C.mask.val = 2 ^ k - 1 := by
    norm_num at hxor
    exact hxor
  simp [hxor, hxor2, hlor]

/-- `Contains` on an IPv4 network is interval membership of the host. -/
theorem v4net_contains (C : GoIPNet) (k : Nat) (hk : k ≤ 32)
    (hiplen : C.ip.len = 4) (hipval : C.ip.val < 2 ^ 32)
    (hmlen : C.mask.len = 4) (hmval : C.mask.val = 2 ^ 32 - 2 ^ k)
    (hip : GoIP) (hl : hip.len = 4) (hv : hip.val < 2 ^ 32) :
    goContains C hip = true ↔
      (C.ip.val / 2 ^ k * 2 ^ k ≤ hip.val ∧
        hip.val ≤ C.ip.val / 2 ^ k * 2 ^ k + (2 ^ k - 1)) := by
  have hnnm : networkNumberAndMask C = some (C.ip, C.mask) := by
    unfold networkNumberAndMask
    simp [to4, hiplen, hmlen]
  have hto4 : to4 hip = some hip := by simp [to4, hl]
  unfold goContains
  rw [hto4, hnnm]
  simp only [Option.getD_some, hl, hiplen, if_true, decide_eq_true_eq]
  rw [hmval, land_canonical 32 k C.ip.val hk hipval, land_canonical 32 k hip.val hk hv]
  exact mask_interval k _ hip.val (Nat.mul_mod_left _ _)

theorem bytesCompare16 (x y : Nat) :
    bytesCompare ⟨16, x⟩ ⟨16, y⟩ = some (compare x y) := by
  simp [bytesCompare, to16]

/-- `rangeRelation` on 16-byte values, numerically. -/
theorem rangeRelation16 (av ae cv ce : Nat) :
    (rangeRelation ⟨16, av⟩ ⟨16, ae⟩ ⟨16, cv⟩ ⟨16, ce⟩ = some .relNone ∧
      (ae < cv ∨ ce < av)) ∨
    (rangeRelation ⟨16, av⟩ ⟨16, ae⟩ ⟨16, cv⟩ ⟨16, ce⟩ = some .relFull ∧
      ¬(ae < cv ∨ ce < av) ∧ av ≤ cv ∧ ce ≤ ae) ∨
    (rangeRelation ⟨16, av⟩ ⟨16, ae⟩ ⟨16, cv⟩ ⟨16, ce⟩ = some .relPartial ∧
      ¬(ae < cv ∨ ce < av) ∧ ¬(av ≤ cv ∧ ce ≤ ae)) := by
  simp only [rangeRelation, bytesCompare16]
  by_cases h1 : ae < cv
  · left
    constructor
    · simp [Nat.compare_eq_lt.mpr h1]
    · exact Or.inl h1
  · rw [if_neg (by rw [Nat.compare_eq_lt]; omega)]
    by_cases h2 : ce < av
    · left
      constructor
      · simp [Nat.compare_eq_gt.mpr h2]
      · exact Or.inr h2
    · rw [if_neg (by rw [Nat.compare_eq_gt]; omega)]
      by_cases h3 : cv < av
      · right; right
        constructor
        · simp [Nat.compare_eq_gt.mpr h3]
        · omega
      · rw [if_neg (by rw [Nat.compare_eq_gt]; omega)]
        by_cases h4 : ae < ce
        · right; right
          constructor
          · simp [Nat.compare_eq_lt.mpr h4]
          · omega
        · rw [if_neg (by rw [Nat.compare_eq_lt]; omega)]
          right; left
          exact ⟨rfl, by omega, by omega, by omega⟩

/-- One step of `matchAddr` for an IPv4-pure address object that is not
the universal sentinel: either the object has no usable range (and the
matcher skips it), or it covers exactly an interval of canonical 16-byte
values whose lower end is v4-mapped. -/
theorem addr_step (a : AddressObject) (hwf : v4AddrB a = true) (hname : a.name ≠ "all")
    (h : GoIP) (hl : h.len = 4) (hv : h.val < 2 ^ 32) :
    (addressRange a = some (none, none) ∧
      ∀ rest, matchAddr (a :: rest) h = matchAddr rest h) ∨
    (∃ av ae, addressRange a = some (some ⟨16, av⟩, some ⟨16, ae⟩) ∧
      v4inv6 ≤ av ∧ av < v4inv6 + 2 ^ 32 ∧
      ∀ rest, matchAddr (a :: rest) h =
        (if av ≤ v4inv6 + h.val ∧ v4inv6 + h.val ≤ ae then some true else matchAddr rest h)) := by
  unfold v4AddrB at hwf
  simp only [Bool.and_eq_true] at hwf
  obtain ⟨⟨hnet, hstart⟩, hend⟩ := hwf
  by_cases hmask : a.type = "ipmask"
  · rcases hn : a.ipnet with _ | n
    · left
      constructor
      · simp [addressRange, hmask, hn]
      · intro rest
        simp [matchAddr, hname, hmask, hn]
    · rw [hn] at hnet
      obtain ⟨k, hk, hiplen, hipval, hmlen, hmval⟩ := v4netB_elim n hnet
      right
      refine ⟨v4inv6 + n.ip.val / 2 ^ k * 2 ^ k,
        v4inv6 + n.ip.val / 2 ^ k * 2 ^ k + (2 ^ k - 1), ?_, by omega, ?_, ?_⟩
      · simp only [addressRange, hmask, if_pos rfl, hn]
        exact v4net_cidrRange n k hk hiplen hipval hmlen hmval
      · have hS : n.ip.val / 2 ^ k * 2 ^ k ≤ n.ip.val := Nat.div_mul_le_self _ _
        omega
      · intro rest
        have hcont := v4net_contains n k hk hiplen hipval hmlen hmval h hl hv
        by_cases hc : goContains n h = true
        · rw [if_pos (by have := hcont.mp hc; omega)]
          simp [matchAddr, hname, hmask, hn, hc]
        · rw [if_neg (by
            intro hcc
            exact hc (hcont.mpr (by omega)))]
          simp [matchAddr, hname, hmask, hn, hc]
  · by_cases hrange : a.type = "iprange"
    · rcases hs : a.startIP with _ | sip
      · left
        constructor
        · simp [addressRange, hmask, hrange, hs]
        · intro rest
          simp [matchAddr, hname, hmask, hrange, hs]
      · rcases he : a.endIP with _ | eip
        · left
          constructor
          · simp [addressRange, hmask, hrange, hs, he]
          · intro rest
            simp [matchAddr, hname, hmask, hrange, hs, he]
        · rw [hs] at hstart
          rw [he] at hend
          have hst := v4ip_to16 sip (by simpa using hstart)
          have het := v4ip_to16 eip (by simpa using hend)
          right
          refine ⟨canonV sip, canonV eip, ?_, hst.2.1, hst.2.2, ?_⟩
          · simp only [addressRange, hmask, hrange, if_pos rfl, hs, he, hst.1, het.1]
            simp [hmask]
          · intro rest
            have hbs : bytesCompare h sip = some (compare (v4inv6 + h.val) (canonV sip)) := by
              unfold bytesCompare
              rw [to16_len4 h hl, hst.1]
            have hbe : bytesCompare h eip = some (compare (v4inv6 + h.val) (canonV eip)) := by
              unfold bytesCompare
              rw [to16_len4 h hl, het.1]
            by_cases hc1 : v4inv6 + h.val < canonV sip
            · rw [if_neg (by omega)]
              simp [matchAddr, hname, hmask, hrange, hs, he, hbs,
                Nat.compare_eq_lt.mpr hc1]
            · by_cases hc2 : canonV eip < v4inv6 + h.val
              · rw [if_neg (by omega)]
                have hlt : compare (v4inv6 + h.val) (canonV sip) ≠ Ordering.lt := by
                  intro hx
                  rw [Nat.compare_eq_lt] at hx
                  omega
                simp [matchAddr, hname, hmask, hrange, hs, he, hbs, hbe, hlt,
                  Nat.compare_eq_gt.mpr hc2]
              · rw [if_pos (by omega)]
                have hlt : compare (v4inv6 + h.val) (canonV sip) ≠ Ordering.lt := by
                  intro hx
                  rw [Nat.compare_eq_lt] at hx
                  omega
                have hgt : compare (v4inv6 + h.val) (canonV eip) ≠ Ordering.gt := by
                  intro hx
                  rw [Nat.compare_eq_gt] at hx
                  omega
                simp [matchAddr, hname, hmask, hrange, hs, he, hbs, hbe, hlt, hgt]
    · left
      constructor
      · simp [addressRange, hmask, hrange]
      · intro rest
        simp [matchAddr, hname, hmask, hrange]

/-- The inline service check of `Precheck` agrees with the evaluator's
`matchSvc` at the task's port and protocol: the two loops test the same
per-service condition. -/
theorem matchSvc_eq_precheck (svcs : List ServiceObject) (task : Task) :
    matchSvc svcs task = precheckSvcMatch svcs task.port task.proto := by
  induction svcs with
  | nil => rfl
  | cons svc rest ih =>
    simp only [matchSvc, precheckSvcMatch, List.any_cons]
    by_cases hn : svc.name = "all"
    · simp [hn]
    · by_cases hp : svc.protocol = task.proto ∧ svc.startPort ≤ task.port ∧
          task.port ≤ svc.endPort
      · simp [hn, hp]
      · simp only [hn, hp, if_false, decide_eq_true_eq, Bool.false_or]
        rw [ih]
        simp [precheckSvcMatch, hn, hp]

/-- Two v4-mapped 16-byte values are in the same family for
`sameIPFamily`: `To4` succeeds on both. -/
theorem sameIPFamily_mapped (av cv : Nat) (ha1 : v4inv6 ≤ av) (ha2 : av < v4inv6 + 2 ^ 32)
    (hc1 : v4inv6 ≤ cv) (hc2 : cv < v4inv6 + 2 ^ 32) :
    sameIPFamily ⟨16, av⟩ ⟨16, cv⟩ = true := by
  simp [sameIPFamily, Option.isSome_iff_exists] at *
  rw [show ((to4 ⟨16, av⟩).isSome) = true from to4_mapped_isSome av ha1 ha2,
    show ((to4 ⟨16, cv⟩).isSome) = true from to4_mapped_isSome cv hc1 hc2]

/-- Once `addrRelation`'s loop has seen a partial overlap, it can no
longer answer `relNone`. -/
theorem addrLoop_true_ne_relNone (cs ce : GoIP) (addrs : List AddressObject) :
    addrRelationLoop cs ce addrs true ≠ some CidrRelation.relNone := by
  induction addrs with
  | nil => simp [addrRelationLoop]
  | cons a rest ih =>
    simp only [addrRelationLoop]
    by_cases hn : a.name = "all"
    · simp [hn]
    · rw [if_neg hn]
      rcases hr : addressRange a with _ | ⟨s0, e0⟩
      · simp
      · rcases s0 with _ | av
        · simpa using ih
        · rcases e0 with _ | ae
          · simpa using ih
          · by_cases hf : sameIPFamily av cs = true
            · rcases hrr : rangeRelation av ae cs ce with _ | r
              · simp [hf, hrr]
              · cases r
                · simpa [hf, hrr] using ih
                · simpa [hf, hrr] using ih
                · simp [hf, hrr]
            · simpa [hf] using ih

/-- Soundness of `addrRelation`'s loop against `matchAddr` on an
IPv4-pure axis: for a host whose canonical 16-byte value lies in the
queried interval, a `relFull` answer forces a per-host match and a
`relNone` answer forces a per-host miss. -/
theorem addrLoop_sound (addrs : List AddressObject)
    (haddrs : addrs.all v4AddrB = true)
    (cv ce : Nat) (hcv1 : v4inv6 ≤ cv) (hcv2 : cv < v4inv6 + 2 ^ 32)
    (h : GoIP) (hl : h.len = 4) (hv : h.val < 2 ^ 32)
    (hm1 : cv ≤ v4inv6 + h.val) (hm2 : v4inv6 + h.val ≤ ce) (pf : Bool) :
    (addrRelationLoop ⟨16, cv⟩ ⟨16, ce⟩ addrs pf = some CidrRelation.relFull →
      matchAddr addrs h = some true) ∧
    (addrRelationLoop ⟨16, cv⟩ ⟨16, ce⟩ addrs pf = some CidrRelation.relNone →
      matchAddr addrs h = some false) := by
  induction addrs generalizing pf with
  | nil =>
    constructor
    · intro hfull
      exfalso
      cases pf <;> simp [addrRelationLoop] at hfull
    · intro _
      rfl
  | cons a rest ih =>
    have hwa : v4AddrB a = true := List.all_eq_true.mp haddrs a (by simp)
    have hrest : rest.all v4AddrB = true :=
      List.all_eq_true.mpr (fun x hx => List.all_eq_true.mp haddrs x (by simp [hx]))
    by_cases hn : a.name = "all"
    · constructor
      · intro _
        simp [matchAddr, hn]
      · intro hnone
        simp [addrRelationLoop, hn] at hnone
    · rcases addr_step a hwa hn h hl hv with ⟨har, hma⟩ | ⟨av, ae, har, hav1, hav2, hma⟩
      · have hloop : addrRelationLoop ⟨16, cv⟩ ⟨16, ce⟩ (a :: rest) pf =
            addrRelationLoop ⟨16, cv⟩ ⟨16, ce⟩ rest pf := by
          simp [addrRelationLoop, hn, har]
        rw [hloop, hma rest]
        exact ih hrest pf
      · have hfam : sameIPFamily ⟨16, av⟩ ⟨16, cv⟩ = true :=
          sameIPFamily_mapped av cv hav1 hav2 hcv1 hcv2
        rcases rangeRelation16 av ae cv ce with ⟨hrr, hdisj⟩ | ⟨hrr, _, hsub1, hsub2⟩ |
          ⟨hrr, hov, hnsub⟩
        · have hloop : addrRelationLoop ⟨16, cv⟩ ⟨16, ce⟩ (a :: rest) pf =
              addrRelationLoop ⟨16, cv⟩ ⟨16, ce⟩ rest pf := by
            simp [addrRelationLoop, hn, har, hfam, hrr]
          have hskip : matchAddr (a :: rest) h = matchAddr rest h := by
            rw [hma rest, if_neg (by omega)]
          rw [hloop, hskip]
          exact ih hrest pf
        · have hloop : addrRelationLoop ⟨16, cv⟩ ⟨16, ce⟩ (a :: rest) pf =
              some CidrRelation.relFull := by
            simp [addrRelationLoop, hn, har, hfam, hrr]
          constructor
          · intro _
            rw [hma rest, if_pos (by omega)]
          · intro hnone
            rw [hloop] at hnone
            exact absurd hnone (by simp)
        · have hloop : addrRelationLoop ⟨16, cv⟩ ⟨16, ce⟩ (a :: rest) pf =
              addrRelationLoop ⟨16, cv⟩ ⟨16, ce⟩ rest true := by
            simp [addrRelationLoop, hn, har, hfam, hrr]
          constructor
          · intro hfull
            rw [hloop] at hfull
            have hrtrue := (ih hrest true).1 hfull
            rw [hma rest]
            by_cases hin : av ≤ v4inv6 + h.val ∧ v4inv6 + h.val ≤ ae
            · rw [if_pos hin]
            · rw [if_neg hin]
              exact hrtrue
          · intro hnone
            rw [hloop] at hnone
            exact absurd hnone (addrLoop_true_ne_relNone _ _ rest)

/-- Soundness of `addrRelation` on one IPv4-pure axis against an IPv4
network and a host it contains. -/
theorem addrRelation_sound (addrs : List AddressObject) (C : GoIPNet)
    (haddrs : addrs.all v4AddrB = true) (hC : v4netB C = true)
    (h : GoIP) (hl : h.len = 4) (hv : h.val < 2 ^ 32) (hin : goContains C h = true) :
    (addrRelation addrs (some C) = some CidrRelation.relFull → matchAddr addrs h = some true) ∧
    (addrRelation addrs (some C) = some CidrRelation.relNone → matchAddr addrs h = some false)
    := by
  obtain ⟨k, hk, hiplen, hipval, hmlen, hmval⟩ := v4netB_elim C hC
  have hcr := v4net_cidrRange C k hk hiplen hipval hmlen hmval
  have hcont := (v4net_contains C k hk hiplen hipval hmlen hmval h hl hv).mp hin
  by_cases hnil : addrs = []
  · subst hnil
    constructor
    · intro hfull
      simp [addrRelation] at hfull
    · intro _
      rfl
  · have heq : addrRelation addrs (some C) =
        addrRelationLoop ⟨16, v4inv6 + C.ip.val / 2 ^ k * 2 ^ k⟩
          ⟨16, v4inv6 + C.ip.val / 2 ^ k * 2 ^ k + (2 ^ k - 1)⟩ addrs false := by
      simp [addrRelation, hnil, hcr]
    have hble : C.ip.val / 2 ^ k * 2 ^ k ≤ C.ip.val := Nat.div_mul_le_self _ _
    rw [heq]
    exact addrLoop_sound addrs haddrs _ _ (by omega) (by omega) h hl hv
      (by omega) (by omega) false

/-- IPv4-pure address objects have convertible range endpoints. -/
theorem v4_all_wfAddr (addrs : List AddressObject) (h : addrs.all v4AddrB = true) :
    addrs.all wfAddrIPs = true := by
  refine List.all_eq_true.mpr (fun a ha => ?_)
  have hwa : v4AddrB a = true := List.all_eq_true.mp h a ha
  unfold v4AddrB at hwa
  simp only [Bool.and_eq_true] at hwa
  obtain ⟨⟨-, hstart⟩, hend⟩ := hwa
  unfold wfAddrIPs
  simp only [Bool.and_eq_true]
  constructor
  · rcases hs : a.startIP with _ | s
    · simp [Option.all]
    · rw [hs] at hstart
      have : v4ipB s = true := by simpa using hstart
      unfold v4ipB at this
      simp only [Bool.or_eq_true, Bool.and_eq_true, beq_iff_eq, decide_eq_true_eq] at this
      simp only [Option.all_some, goodIP, Bool.or_eq_true, beq_iff_eq]
      omega
  · rcases he : a.endIP with _ | e
    · simp [Option.all]
    · rw [he] at hend
      have : v4ipB e = true := by simpa using hend
      unfold v4ipB at this
      simp only [Bool.or_eq_true, Bool.and_eq_true, beq_iff_eq, decide_eq_true_eq] at this
      simp only [Option.all_some, goodIP, Bool.or_eq_true, beq_iff_eq]
      omega

/-- Soundness of `Precheck`'s policy loop against the evaluator's policy
loop, on an IPv4-pure policy list, IPv4 query networks and a contained
host pair. -/
theorem precheckLoop_sound (policies : List Policy)
    (hpol : policies.all (fun p => p.srcAddrs.all v4AddrB && p.dstAddrs.all v4AddrB) = true)
    (srcC dstC : GoIPNet) (hsrcC : v4netB srcC = true) (hdstC : v4netB dstC = true)
    (t : Task) (hs4 : t.srcIP.len = 4) (hsv : t.srcIP.val < 2 ^ 32)
    (hd4 : t.dstIP.len = 4) (hdv : t.dstIP.val < 2 ^ 32)
    (hsin : goContains srcC t.srcIP = true) (hdin : goContains dstC t.dstIP = true) :
    (∀ p r, precheckLoop srcC dstC t.port t.proto policies =
        some (PrecheckStatus.allowAll, some p, r) →
      evalLoop policies t = some (matchResult p t) ∧ p.action = "accept") ∧
    (∀ p r, precheckLoop srcC dstC t.port t.proto policies =
        some (PrecheckStatus.skip, some p, r) →
      evalLoop policies t = some (matchResult p t) ∧ p.action ≠ "accept") ∧
    (∀ r, precheckLoop srcC dstC t.port t.proto policies =
        some (PrecheckStatus.skip, none, r) →
      evalLoop policies t = some (implicitDenyResult t)) := by
  induction policies with
  | nil =>
    refine ⟨fun p r hpre => ?_, fun p r hpre => ?_, fun r _ => rfl⟩
    · simp [precheckLoop] at hpre
    · simp [precheckLoop] at hpre
  | cons policy rest ih =>
    have hp1 : policy.srcAddrs.all v4AddrB = true ∧ policy.dstAddrs.all v4AddrB = true := by
      have := List.all_eq_true.mp hpol policy (by simp)
      exact Bool.and_eq_true_iff.mp this
    have hrest : rest.all (fun p => p.srcAddrs.all v4AddrB && p.dstAddrs.all v4AddrB)
        = true :=
      List.all_eq_true.mpr (fun x hx => List.all_eq_true.mp hpol x (by simp [hx]))
    obtain ⟨ih1, ih2, ih3⟩ := ih hrest
    have hsT := matchAddr_total policy.srcAddrs t.srcIP
      (v4_all_wfAddr policy.srcAddrs hp1.1) (by simp [goodIP, hs4])
    have hdT := matchAddr_total policy.dstAddrs t.dstIP
      (v4_all_wfAddr policy.dstAddrs hp1.2) (by simp [goodIP, hd4])
    have hsrcS := addrRelation_sound policy.srcAddrs srcC hp1.1 hsrcC t.srcIP hs4 hsv hsin
    have hdstS := addrRelation_sound policy.dstAddrs dstC hp1.2 hdstC t.dstIP hd4 hdv hdin
    by_cases hen : policy.enabled = true
    · by_cases hsvcm : precheckSvcMatch policy.services t.port t.proto = true
      · rcases hsr : addrRelation policy.srcAddrs (some srcC) with _ | sr
        · have hpre_eq : precheckLoop srcC dstC t.port t.proto (policy :: rest) = none := by
            simp [precheckLoop, hen, hsvcm, hsr]
          refine ⟨fun p r hpre => ?_, fun p r hpre => ?_, fun r hpre => ?_⟩ <;>
            (rw [hpre_eq] at hpre; exact absurd hpre (by simp))
        · cases sr with
          | relNone =>
            have hsfalse : matchAddr policy.srcAddrs t.srcIP = some false := hsrcS.2 hsr
            have hms : matchesPolicy policy t = some false := by
              simp [matchesPolicy, hsfalse]
            have hpre_eq : precheckLoop srcC dstC t.port t.proto (policy :: rest) =
                precheckLoop srcC dstC t.port t.proto rest := by
              simp [precheckLoop, hen, hsvcm, hsr]
            have heval_eq : evalLoop (policy :: rest) t = evalLoop rest t := by
              simp [evalLoop, hen, hms]
            refine ⟨fun p r hpre => ?_, fun p r hpre => ?_, fun r hpre => ?_⟩ <;>
              rw [hpre_eq] at hpre <;> rw [heval_eq]
            · exact ih1 p r hpre
            · exact ih2 p r hpre
            · exact ih3 r hpre
          | relPartial =>
            rcases hdr : addrRelation policy.dstAddrs (some dstC) with _ | dr
            · have hpre_eq : precheckLoop srcC dstC t.port t.proto (policy :: rest) =
                  none := by
                simp [precheckLoop, hen, hsvcm, hsr, hdr]
              refine ⟨fun p r hpre => ?_, fun p r hpre => ?_, fun r hpre => ?_⟩ <;>
                (rw [hpre_eq] at hpre; exact absurd hpre (by simp))
            · cases dr with
              | relNone =>
                have hdfalse : matchAddr policy.dstAddrs t.dstIP = some false := hdstS.2 hdr
                have hms : matchesPolicy policy t = some false := by
                  obtain ⟨bs, hbs⟩ := hsT
                  cases bs
                  · simp [matchesPolicy, hbs]
                  · simp [matchesPolicy, hbs, hdfalse]
                have hpre_eq : precheckLoop srcC dstC t.port t.proto (policy :: rest) =
                    precheckLoop srcC dstC t.port t.proto rest := by
                  simp [precheckLoop, hen, hsvcm, hsr, hdr]
                have heval_eq : evalLoop (policy :: rest) t = evalLoop rest t := by
                  simp [evalLoop, hen, hms]
                refine ⟨fun p r hpre => ?_, fun p r hpre => ?_, fun r hpre => ?_⟩ <;>
                  rw [hpre_eq] at hpre <;> rw [heval_eq]
                · exact ih1 p r hpre
                · exact ih2 p r hpre
                · exact ih3 r hpre
              | relPartial =>
                have hpre_eq : precheckLoop srcC dstC t.port t.proto (policy :: rest) =
                    some (PrecheckStatus.expand, some policy, "PRECHECK_PARTIAL") := by
                  simp [precheckLoop, hen, hsvcm, hsr, hdr]
                refine ⟨fun p r hpre => ?_, fun p r hpre => ?_, fun r hpre => ?_⟩ <;>
                  (rw [hpre_eq] at hpre; exact absurd hpre (by simp))
              | relFull =>
                have hpre_eq : precheckLoop srcC dstC t.port t.proto (policy :: rest) =
                    some (PrecheckStatus.expand, some policy, "PRECHECK_PARTIAL") := by
                  simp [precheckLoop, hen, hsvcm, hsr, hdr]
                refine ⟨fun p r hpre => ?_, fun p r hpre => ?_, fun r hpre => ?_⟩ <;>
                  (rw [hpre_eq] at hpre; exact absurd hpre (by simp))
          | relFull =>
            have hstrue : matchAddr policy.srcAddrs t.srcIP = some true := hsrcS.1 hsr
            rcases hdr : addrRelation policy.dstAddrs (some dstC) with _ | dr
            · have hpre_eq : precheckLoop srcC dstC t.port t.proto (policy :: rest) =
                  none := by
                simp [precheckLoop, hen, hsvcm, hsr, hdr]
              refine ⟨fun p r hpre => ?_, fun p r hpre => ?_, fun r hpre => ?_⟩ <;>
                (rw [hpre_eq] at hpre; exact absurd hpre (by simp))
            · cases dr with
              | relNone =>
                have hdfalse : matchAddr policy.dstAddrs t.dstIP = some false := hdstS.2 hdr
                have hms : matchesPolicy policy t = some false := by
                  simp [matchesPolicy, hstrue, hdfalse]
                have hpre_eq : precheckLoop srcC dstC t.port t.proto (policy :: rest) =
                    precheckLoop srcC dstC t.port t.proto rest := by
                  simp [precheckLoop, hen, hsvcm, hsr, hdr]
                have heval_eq : evalLoop (policy :: rest) t = evalLoop rest t := by
                  simp [evalLoop, hen, hms]
                refine ⟨fun p r hpre => ?_, fun p r hpre => ?_, fun r hpre => ?_⟩ <;>
                  rw [hpre_eq] at hpre <;> rw [heval_eq]
                · exact ih1 p r hpre
                · exact ih2 p r hpre
                · exact ih3 r hpre
              | relPartial =>
                have hpre_eq : precheckLoop srcC dstC t.port t.proto (policy :: rest) =
                    some (PrecheckStatus.expand, some policy, "PRECHECK_PARTIAL") := by
                  simp [precheckLoop, hen, hsvcm, hsr, hdr]
                refine ⟨fun p r hpre => ?_, fun p r hpre => ?_, fun r hpre => ?_⟩ <;>
                  (rw [hpre_eq] at hpre; exact absurd hpre (by simp))
              | relFull =>
                have hdtrue : matchAddr policy.dstAddrs t.dstIP = some true := hdstS.1 hdr
                have hsvct : matchSvc policy.services t = true := by
                  rw [matchSvc_eq_precheck]
                  exact hsvcm
                have hms : matchesPolicy policy t = some true := by
                  simp [matchesPolicy, hstrue, hdtrue, hsvct]
                have heval_eq : evalLoop (policy :: rest) t = some (matchResult policy t)
                    := by
                  simp [evalLoop, hen, hms]
                by_cases hact : policy.action = "accept"
                · have hpre_eq : precheckLoop srcC dstC t.port t.proto (policy :: rest) =
                      some (PrecheckStatus.allowAll, some policy, "PRECHECK_ALLOW_ALL")
                      := by
                    simp [precheckLoop, hen, hsvcm, hsr, hdr, hact]
                  refine ⟨fun p r hpre => ?_, fun p r hpre => ?_, fun r hpre => ?_⟩ <;>
                    rw [hpre_eq] at hpre
                  · simp only [Option.some.injEq, Prod.mk.injEq] at hpre
                    obtain ⟨-, hpp, -⟩ := hpre
                    obtain rfl : policy = p := hpp
                    exact ⟨heval_eq, hact⟩
                  · exact absurd hpre (by simp)
                  · exact absurd hpre (by simp)
                · have hpre_eq : precheckLoop srcC dstC t.port t.proto (policy :: rest) =
                      some (PrecheckStatus.skip, some policy, "PRECHECK_DENY") := by
                    simp [precheckLoop, hen, hsvcm, hsr, hdr, hact]
                  refine ⟨fun p r hpre => ?_, fun p r hpre => ?_, fun r hpre => ?_⟩ <;>
                    rw [hpre_eq] at hpre
                  · exact absurd hpre (by simp)
                  · simp only [Option.some.injEq, Prod.mk.injEq] at hpre
                    obtain ⟨-, hpp, -⟩ := hpre
                    obtain rfl : policy = p := hpp
                    exact ⟨heval_eq, hact⟩
                  · exact absurd hpre (by simp)
      · have hpre_eq : precheckLoop srcC dstC t.port t.proto (policy :: rest) =
            precheckLoop srcC dstC t.port t.proto rest := by
          simp [precheckLoop, hen, hsvcm]
        have hms : matchesPolicy policy t = some false := by
          have hsvcf : matchSvc policy.services t = false := by
            rw [matchSvc_eq_precheck]
            simpa using hsvcm
          obtain ⟨bs, hbs⟩ := hsT
          obtain ⟨bd, hbd⟩ := hdT
          cases bs
          · simp [matchesPolicy, hbs]
          · cases bd
            · simp [matchesPolicy, hbs, hbd]
            · simp [matchesPolicy, hbs, hbd, hsvcf]
        have heval_eq : evalLoop (policy :: rest) t = evalLoop rest t := by
          simp [evalLoop, hen, hms]
        refine ⟨fun p r hpre => ?_, fun p r hpre => ?_, fun r hpre => ?_⟩ <;>
          rw [hpre_eq] at hpre <;> rw [heval_eq]
        · exact ih1 p r hpre
        · exact ih2 p r hpre
        · exact ih3 r hpre
    · have hpre_eq : precheckLoop srcC dstC t.port t.proto (policy :: rest) =
          precheckLoop srcC dstC t.port t.proto rest := by
        simp [precheckLoop, hen]
      have heval_eq : evalLoop (policy :: rest) t = evalLoop rest t := by
        simp [evalLoop, hen]
      refine ⟨fun p r hpre => ?_, fun p r hpre => ?_, fun r hpre => ?_⟩ <;>
        rw [hpre_eq] at hpre <;> rw [heval_eq]
      · exact ih1 p r hpre
      · exact ih2 p r hpre
      · exact ih3 r hpre

/-- C3 (amended): Precheck is sound with respect to per-host evaluation
for IPv4-pure configurations: for every evaluator all of whose address
objects are IPv4-pure (ipmask objects hold a 4-byte network with a
canonical 4-byte mask; iprange endpoints are 4-byte or v4-mapped 16-byte
addresses), every IPv4 source and destination query network, and every
IPv4 host pair contained in them — if Precheck returns ALLOW_ALL with
policy p then evaluation of the per-host task yields the match result of
p, whose decision is ALLOW and whose matched policy id is p.id; if
Precheck returns SKIP with a policy p, evaluation yields the match
result of p, with decision DENY and matched policy id p.id; and if
Precheck returns SKIP with no policy, evaluation yields the implicit
deny result, whose reason is IMPLICIT_DENY.  (The restriction to
IPv4-pure address objects is forced: `addrRelation` filters by IP family
while `matchAddr` does not — see the counterexample.) -/
theorem C3_precheck_sound (e : Evaluator) (srcC dstC : GoIPNet) (t : Task)
    (hv4 : v4EvaluatorB e = true) (hsrcC : v4netB srcC = true) (hdstC : v4netB dstC = true)
    (hs4 : t.srcIP.len = 4) (hsv : t.srcIP.val < 2 ^ 32)
    (hd4 : t.dstIP.len = 4) (hdv : t.dstIP.val < 2 ^ 32)
    (hsin : goContains srcC t.srcIP = true) (hdin : goContains dstC t.dstIP = true) :
    (∀ p r, Precheck e (some srcC) (some dstC) t.port t.proto =
        some (PrecheckStatus.allowAll, some p, r) →
      Evaluate e t = some (matchResult p t) ∧ (matchResult p t).decision = "ALLOW" ∧
        (matchResult p t).matchedPolicyID = p.id) ∧
    (∀ p r, Precheck e (some srcC) (some dstC) t.port t.proto =
        some (PrecheckStatus.skip, some p, r) →
      Evaluate e t = some (matchResult p t) ∧ (matchResult p t).decision = "DENY" ∧
        (matchResult p t).matchedPolicyID = p.id) ∧
    (∀ r, Precheck e (some srcC) (some dstC) t.port t.proto =
        some (PrecheckStatus.skip, none, r) →
      Evaluate e t = some (implicitDenyResult t) ∧
        (implicitDenyResult t).reason = "IMPLICIT_DENY") := by
  have hpol : e.policies.all (fun p => p.srcAddrs.all v4AddrB && p.dstAddrs.all v4AddrB)
      = true := hv4
  obtain ⟨hs1, hs2, hs3⟩ := precheckLoop_sound e.policies hpol srcC dstC hsrcC hdstC
    t hs4 hsv hd4 hdv hsin hdin
  refine ⟨fun p r hpre => ?_, fun p r hpre => ?_, fun r hpre => ?_⟩
  · obtain ⟨heval, hact⟩ := hs1 p r hpre
    exact ⟨heval, by simp [matchResult, hact], rfl⟩
  · obtain ⟨heval, hact⟩ := hs2 p r hpre
    exact ⟨heval, by simp [matchResult, hact], rfl⟩
  · exact ⟨hs3 r hpre, rfl⟩

/-- The source query network 10.0.0.0/24 of the C3 witness. -/
def c3Net10 : GoIPNet := ⟨⟨4, 0x0a000000⟩, ⟨4, 0xffffff00⟩⟩

/-- The destination query network 192.168.1.0/24 of the C3 witness. -/
def c3NetD : GoIPNet := ⟨⟨4, 0xc0a80100⟩, ⟨4, 0xffffff00⟩⟩

/-- An `ipmask` object for 10.0.0.0/16, fully covering `c3Net10`. -/
def c3SrcObj : AddressObject :=
  ⟨"net10", "ipmask", some ⟨⟨4, 0x0a000000⟩, ⟨4, 0xffff0000⟩⟩, none, none, ""⟩

/-- An enabled accept policy matching any destination and service. -/
def c3Pol : Policy :=
  ⟨"42", 1, "", [c3SrcObj], [allAddr], [allSvc], [], [], [], "accept", true, ""⟩

/-- The single-policy evaluator of the C3 witness. -/
def c3Eval : Evaluator := ⟨[c3Pol]⟩

/-- A per-host task with hosts drawn from the two query networks. -/
def c3Task : Task := ⟨⟨4, 0x0a000007⟩, "", ⟨4, 0xc0a80105⟩, "", 80, "tcp", ""⟩

/-- Witness for C3's amended theorem: a fully covered query for which
Precheck answers ALLOW_ALL and per-host evaluation allows the task with
the same policy id. -/
theorem C3_witness :
    Precheck c3Eval (some c3Net10) (some c3NetD) 80 "tcp" =
      some (PrecheckStatus.allowAll, some c3Pol, "PRECHECK_ALLOW_ALL") ∧
    Evaluate c3Eval c3Task = some (matchResult c3Pol c3Task) ∧
    (matchResult c3Pol c3Task).decision = "ALLOW" ∧
    (matchResult c3Pol c3Task).matchedPolicyID = c3Pol.id := by
  have hm := C3_precheck_sound c3Eval c3Net10 c3NetD c3Task (by decide) (by decide)
    (by decide) (by decide) (by decide) (by decide) (by decide) (by decide) (by decide)
  exact ⟨by decide, hm.1 c3Pol "PRECHECK_ALLOW_ALL" (by decide)⟩

/-- An IPv6 `iprange` object spanning the whole 16-byte address space;
its byte-wise comparison matches every v4-mapped host, but its family
differs from an IPv4 query network's. -/
def c3CxAddr : AddressObject :=
  ⟨"v6rng", "iprange", none, some ⟨16, 0⟩, some ⟨16, 2 ^ 128 - 1⟩, ""⟩

/-- An enabled accept policy whose source axis is the IPv6 range. -/
def c3CxPol : Policy :=
  ⟨"7", 1, "", [c3CxAddr], [allAddr], [allSvc], [], [], [], "accept", true, ""⟩

/-- The single-policy evaluator of the C3 counterexample. -/
def c3CxEval : Evaluator := ⟨[c3CxPol]⟩

/-- A per-host task with hosts drawn from the counterexample's query
networks. -/
def c3CxTask : Task := ⟨⟨4, 0x0a000001⟩, "", ⟨4, 0x0a000002⟩, "", 80, "tcp", ""⟩

/-- Counterexample to C3 as stated: for this evaluator and these query
networks, Precheck answers SKIP with no policy (reason IMPLICIT_DENY),
yet per-host evaluation of a host pair drawn from the networks yields
ALLOW on policy 7 — `addrRelation` skips the IPv6 range through its
same-family filter while `matchAddr` byte-compares it and matches. -/
theorem C3_counterexample :
    goContains c3Net10 (⟨4, 0x0a000001⟩ : GoIP) = true ∧
    goContains c3NetD (⟨4, 0xc0a80105⟩ : GoIP) = true ∧
    Precheck c3CxEval (some c3Net10) (some c3NetD) 80 "tcp" =
      some (PrecheckStatus.skip, none, "PRECHECK_IMPLICIT_DENY") ∧
    Evaluate c3CxEval ⟨⟨4, 0x0a000001⟩, "", ⟨4, 0xc0a80105⟩, "", 80, "tcp", ""⟩ =
      some (matchResult c3CxPol ⟨⟨4, 0x0a000001⟩, "", ⟨4, 0xc0a80105⟩, "", 80, "tcp", ""⟩) ∧
    (matchResult c3CxPol ⟨⟨4, 0x0a000001⟩, "", ⟨4, 0xc0a80105⟩, "", 80, "tcp", ""⟩).decision
      = "ALLOW" ∧
    (matchResult c3CxPol ⟨⟨4, 0x0a000001⟩, "", ⟨4, 0xc0a80105⟩, "", 80, "tcp", ""⟩).reason
      ≠ "IMPLICIT_DENY" := by
  refine ⟨by decide, by decide, by decide, by decide, by decide, by decide⟩

/-! ## The task producer and the task estimator (main, src/unnamed/part_000) -/

/-- Embeds `parser.PortInfo`. -/
structure PortInfo where
  label : String
  port : Int
  protocol : String
  deriving DecidableEq

/-- Embeds `parser.Destination`; the metadata map only passes through to
tasks and plays no role in counting. -/
structure Destination where
  ipnet : GoIPNet
  metadata : List (String × String)
  deriving DecidableEq

/-- Embeds `parser.InputTraffic`. -/
structure InputTraffic where
  srcIPs : List GoIPNet
  dstIPs : List Destination
  ports : List PortInfo
  deriving DecidableEq

/-- The producer's per-network expansion flag (main, the `srcInfos` and
`dstInfos` precomputation): `matchMode == "expand" && size > 1 &&
size <= maxHosts` with `size = CIDRSize(n)` (`maxHosts` is a Go
`uint64`). -/
def expandFlag (mode : String) (maxHosts : Nat) (n : GoIPNet) : Bool :=
  decide (mode = "expand") && decide (1 < CIDRSize n) && decide (CIDRSize n ≤ maxHosts)

/-- The estimator's per-network count (`estimateTotalTasks`, the
`srcCount`/`dstCount` blocks): `CIDRSize(n)` when in expand mode with
`1 < size <= maxHosts`, else 1. -/
def estCount (mode : String) (maxHosts : Nat) (n : GoIPNet) : Nat :=
  if mode = "expand" then
    if 1 < CIDRSize n ∧ CIDRSize n ≤ maxHosts then CIDRSize n else 1
  else 1

/-- Embeds `estimateTotalTasks`: the nested loop over sources,
destinations and ports accumulating `total += srcCount * dstCount` in Go
`uint64` arithmetic; a `nil` traffic pointer yields 0. -/
def estimateTotalTasks (traffic : Option InputTraffic) (mode : String) (maxHosts : Nat) :
    Nat :=
  match traffic with
  | none => 0
  | some tr =>
    tr.srcIPs.foldl (fun total srcNet =>
      tr.dstIPs.foldl (fun t2 dst =>
        tr.ports.foldl
          (fun t3 _ =>
            (t3 + estCount mode maxHosts srcNet * estCount mode maxHosts dst.ipnet % 2 ^ 64)
              % 2 ^ 64)
          t2) total) 0

/-- The start value `n.IP.Mask(n.Mask)` of a producer host loop; Go's
`nil` result (mismatched lengths) is the nil slice, which no network
contains. -/
def maskedBase (n : GoIPNet) : GoIP := (goMask n.ip n.mask).getD ⟨0, 0⟩

/-- Big-step iteration count of one producer host loop
(`for ip := base; n.Contains(ip); { emit; if !expand { break };
Inc(ip) }`): `HostLoop n expand ip c` holds iff the loop entered at `ip`
performs exactly `c` iterations and terminates.  A diverging loop — an
expanded `/0` network, where `Inc` wraps around inside the network —
satisfies no `c`. -/
inductive HostLoop (n : GoIPNet) (expand : Bool) : GoIP → Nat → Prop where
  | exit (ip : GoIP) : goContains n ip = false → HostLoop n expand ip 0
  | once (ip : GoIP) : goContains n ip = true → expand = false → HostLoop n expand ip 1
  | step (ip : GoIP) (c : Nat) : goContains n ip = true → expand = true →
      HostLoop n expand (Inc ip) c → HostLoop n expand ip (c + 1)

/-- The number of hosts one axis network contributes under the
producer's expansion flag. -/
def axisCount (mode : String) (maxHosts : Nat) (n : GoIPNet) (c : Nat) : Prop :=
  HostLoop n (expandFlag mode maxHosts n) (maskedBase n) c

/-- The number of tasks the producer goroutine emits before closing the
channel: per-source host counts `scs` (one per source network) and, when
any source host is produced at all, per-destination host counts `dcs`;
every source host runs the full destination iteration and every
destination host the full port iteration, so the total is the product of
the two host sums with the port count.  When every source loop exits
immediately the inner loops never run and the total is 0.  A
configuration whose executed loops diverge satisfies this for no
`total`. -/
def ProducerCount (mode : String) (maxHosts : Nat) (srcs : List GoIPNet)
    (dsts : List Destination) (nports : Nat) (total : Nat) : Prop :=
  ∃ scs : List Nat, List.Forall₂ (axisCount mode maxHosts) srcs scs ∧
    ((scs.sum = 0 ∧ total = 0) ∨
      (∃ dcs : List Nat,
        List.Forall₂ (fun d c => axisCount mode maxHosts d.ipnet c) dsts dcs ∧
        total = scs.sum * dcs.sum * nports))

/-- `IP.Mask` on a 4-byte ip and 4-byte mask is the bitwise AND. -/
theorem goMask4 (ip mask : GoIP) (hip : ip.len = 4) (hm : mask.len = 4) :
    goMask ip mask = some ⟨4, ip.val &&& mask.val⟩ := by
  simp [goMask, hip, hm]

/-- The producer's loop start for an IPv4 network is the network base
address. -/
theorem maskedBase_v4 (n : GoIPNet) (k : Nat) (hk : k ≤ 32)
    (hiplen : n.ip.len = 4) (hipval : n.ip.val < 2 ^ 32)
    (hmlen : n.mask.len = 4) (hmval : n.mask.val = 2 ^ 32 - 2 ^ k) :
    maskedBase n = ⟨4, n.ip.val / 2 ^ k * 2 ^ k⟩ := by
  unfold maskedBase
  rw [goMask4 n.ip n.mask hiplen hmlen, Option.getD_some, hmval,
    land_canonical 32 k n.ip.val hk hipval]

/-- `Contains` of an IPv4 network at a plain 4-byte value. -/
theorem v4net_contains_val (C : GoIPNet) (k : Nat) (hk : k ≤ 32)
    (hiplen : C.ip.len = 4) (hipval : C.ip.val < 2 ^ 32)
    (hmlen : C.mask.len = 4) (hmval : C.mask.val = 2 ^ 32 - 2 ^ k)
    (x : Nat) (hx : x < 2 ^ 32) :
    goContains C ⟨4, x⟩ = true ↔
      (C.ip.val / 2 ^ k * 2 ^ k ≤ x ∧ x ≤ C.ip.val / 2 ^ k * 2 ^ k + (2 ^ k - 1)) :=
  v4net_contains C k hk hiplen hipval hmlen hmval ⟨4, x⟩ rfl hx

/-- `CIDRSize` of an IPv4 network with a canonical /``32-k`` mask is
`2^k` (the shift stays far below the `uint64` wrap). -/
theorem cidrSize_canonical32 (n : GoIPNet) (k : Nat) (hk : k ≤ 32)
    (hmlen : n.mask.len = 4) (hmval : n.mask.val = 2 ^ 32 - 2 ^ k) :
    CIDRSize n = 2 ^ k := by
  have hms : maskSize n.mask = (32 - k, 32) := by
    have hcanon : (2 ^ (32 - k) - 1) * 2 ^ (8 * 4 - (32 - k)) = 2 ^ 32 - 2 ^ k := by
      have he : 8 * 4 - (32 - k) = k := by omega
      rw [canonical_mask_val (8 * 4) (32 - k) (by omega), he]
    have hmask : n.mask = (⟨4, (2 ^ (32 - k) - 1) * 2 ^ (8 * 4 - (32 - k))⟩ : GoIP) := by
      rcases hm : n.mask with ⟨l, v⟩
      rw [hm] at hmlen hmval
      simp only at hmlen hmval
      subst hmlen
      rw [hcanon, hmval]
    rw [hmask, maskSize_canonical 4 (32 - k) (by omega)]
  simp only [CIDRSize, hms]
  have he2 : 32 - (32 - k) = k := by omega
  rw [Nat.shiftLeft_eq, one_mul, he2]
  exact Nat.mod_eq_of_lt (Nat.pow_lt_pow_right (by omega) (by omega))

/-- Counting the expanded host loop of an IPv4 network that is not /0:
from the host `base + (2^k - m)` the loop performs exactly `m` more
iterations before `Inc` leaves the network. -/
theorem hostLoop_expand (n : GoIPNet) (k : Nat) (hk : k ≤ 32) (hk32 : k < 32)
    (hiplen : n.ip.len = 4) (hipval : n.ip.val < 2 ^ 32)
    (hmlen : n.mask.len = 4) (hmval : n.mask.val = 2 ^ 32 - 2 ^ k) :
    ∀ m v, 1 ≤ m → m ≤ 2 ^ k → v = n.ip.val / 2 ^ k * 2 ^ k + (2 ^ k - m) →
      HostLoop n true ⟨4, v⟩ m := by
  have hble : n.ip.val / 2 ^ k * 2 ^ k ≤ n.ip.val := Nat.div_mul_le_self _ _
  have hB1 : (1 : Nat) ≤ 2 ^ k := Nat.one_le_two_pow
  have hBlt : 2 ^ k < 2 ^ 32 := Nat.pow_lt_pow_right (by omega) hk32
  have hpow : 2 ^ (32 - k) * 2 ^ k = 2 ^ 32 := by
    rw [← pow_add]
    congr 1
    omega
  have hpow2 : 2 ^ k * 2 ^ (32 - k) = 2 ^ 32 := by
    rw [← pow_add]
    congr 1
    omega
  have hq : n.ip.val / 2 ^ k < 2 ^ (32 - k) := Nat.div_lt_of_lt_mul (by omega)
  have hbase : n.ip.val / 2 ^ k * 2 ^ k + 2 ^ k ≤ 2 ^ 32 := by
    have h1 : (n.ip.val / 2 ^ k + 1) * 2 ^ k ≤ 2 ^ (32 - k) * 2 ^ k :=
      Nat.mul_le_mul_right _ (by omega)
    rw [hpow, Nat.add_mul, one_mul] at h1
    exact h1
  intro m
  induction m with
  | zero =>
    intro v h1 _ _
    omega
  | succ m ih =>
    intro v h1 h2 hval
    rcases Nat.eq_zero_or_pos m with hm0 | hmpos
    · subst hm0
      refine HostLoop.step _ _ ?_ rfl ?_
      · exact (v4net_contains_val n k hk hiplen hipval hmlen hmval v (by omega)).mpr
          ⟨by omega, by omega⟩
      · have hinc : Inc ⟨4, v⟩ = ⟨4, (v + 1) % 2 ^ 32⟩ := rfl
        rw [hinc]
        apply HostLoop.exit
        by_cases htop : v + 1 = 2 ^ 32
        · have h0 : (v + 1) % 2 ^ 32 = 0 := by rw [htop]; simp
          rw [h0]
          apply Bool.eq_false_iff.mpr
          intro hgc
          have hmem := (v4net_contains_val n k hk hiplen hipval hmlen hmval 0
            (by omega)).mp hgc
          omega
        · have h1lt : v + 1 < 2 ^ 32 := by omega
          rw [Nat.mod_eq_of_lt h1lt]
          apply Bool.eq_false_iff.mpr
          intro hgc
          have hmem := (v4net_contains_val n k hk hiplen hipval hmlen hmval (v + 1)
            h1lt).mp hgc
          omega
    · refine HostLoop.step _ _ ?_ rfl ?_
      · exact (v4net_contains_val n k hk hiplen hipval hmlen hmval v (by omega)).mpr
          ⟨by omega, by omega⟩
      · have hvlt : v + 1 < 2 ^ 32 := by omega
        have hinc : Inc ⟨4, v⟩ = ⟨4, (v + 1) % 2 ^ 32⟩ := rfl
        rw [hinc, Nat.mod_eq_of_lt hvlt]
        exact ih (v + 1) hmpos (by omega) (by omega)

/-- Every IPv4 network's host loop terminates — counting `CIDRSize`
hosts when expanded and 1 host otherwise — provided an expanded network
is not /0 (whose loop wraps around and diverges). -/
theorem hostLoop_count (n : GoIPNet) (hn : v4netB n = true) (b : Bool)
    (hb : b = true → n.mask.val ≠ 0) :
    ∃ k, k ≤ 32 ∧ CIDRSize n = 2 ^ k ∧
      HostLoop n b (maskedBase n) (if b = true then 2 ^ k else 1) := by
  obtain ⟨k, hk, hiplen, hipval, hmlen, hmval⟩ := v4netB_elim n hn
  refine ⟨k, hk, cidrSize_canonical32 n k hk hmlen hmval, ?_⟩
  rw [maskedBase_v4 n k hk hiplen hipval hmlen hmval]
  have hble : n.ip.val / 2 ^ k * 2 ^ k ≤ n.ip.val := Nat.div_mul_le_self _ _
  have hB1 : (1 : Nat) ≤ 2 ^ k := Nat.one_le_two_pow
  cases b with
  | false =>
    simp only [Bool.false_eq_true, if_false]
    exact HostLoop.once _ ((v4net_contains_val n k hk hiplen hipval hmlen hmval
      (n.ip.val / 2 ^ k * 2 ^ k) (by omega)).mpr ⟨le_rfl, by omega⟩) rfl
  | true =>
    have hk32 : k < 32 := by
      by_contra hc
      have hke : k = 32 := by omega
      subst hke
      exact hb rfl (by rw [hmval]; simp)
    simp only [if_pos rfl]
    exact hostLoop_expand n k hk hk32 hiplen hipval hmlen hmval (2 ^ k) _
      hB1 le_rfl (by omega)

/-- The producer's per-network host count equals the estimator's
per-network count for IPv4 networks whose expanded form is not /0. -/
theorem axisCount_estCount (mode : String) (maxHosts : Nat) (n : GoIPNet)
    (hn : v4netB n = true) (hterm : expandFlag mode maxHosts n = true → n.mask.val ≠ 0) :
    axisCount mode maxHosts n (estCount mode maxHosts n) := by
  obtain ⟨k, hk, hcs, hloop⟩ := hostLoop_count n hn (expandFlag mode maxHosts n) hterm
  unfold axisCount
  have hec : estCount mode maxHosts n =
      if expandFlag mode maxHosts n = true then 2 ^ k else 1 := by
    unfold estCount expandFlag
    rw [hcs]
    by_cases hm : mode = "expand"
    · by_cases hc1 : 1 < 2 ^ k
      · by_cases hc2 : 2 ^ k ≤ maxHosts
        · simp [hm, hc1, hc2]
        · simp [hm, hc1, hc2]
      · simp [hm, hc1]
    · simp [hm]
  rw [hec]
  exact hloop

/-- Builds the producer's `Forall₂` host-count list pointwise. -/
theorem forall2_map_of_mem {α : Type} (R : α → Nat → Prop) (f : α → Nat) (l : List α)
    (h : ∀ x ∈ l, R x (f x)) : List.Forall₂ R l (l.map f) := by
  induction l with
  | nil => exact List.Forall₂.nil
  | cons a rest ih =>
    exact List.Forall₂.cons (h a (by simp)) (ih (fun x hx => h x (by simp [hx])))

/-- One `uint64` accumulation loop adding a fixed summand per element. -/
theorem foldl_mod_const {β : Type} (c : Nat) :
    ∀ (l : List β) (t0 : Nat), t0 < 2 ^ 64 →
      l.foldl (fun t _ => (t + c % 2 ^ 64) % 2 ^ 64) t0 = (t0 + l.length * c) % 2 ^ 64 := by
  intro l
  induction l with
  | nil =>
    intro t0 ht0
    simp only [List.foldl_nil, List.length_nil, Nat.zero_mul, Nat.add_zero]
    exact (Nat.mod_eq_of_lt ht0).symm
  | cons x rest ih =>
    intro t0 ht0
    simp only [List.foldl_cons, List.length_cons]
    rw [ih ((t0 + c % 2 ^ 64) % 2 ^ 64) (Nat.mod_lt _ (by norm_num)), Nat.mod_add_mod,
      Nat.add_right_comm t0 (c % 2 ^ 64) (rest.length * c), Nat.add_mod_mod,
      Nat.succ_mul, ← Nat.add_assoc]

/-- A `uint64` accumulation loop whose body adds `g b` mod `2^64`. -/
theorem foldl_mod_sum {β : Type} (g : β → Nat) (inner : Nat → β → Nat)
    (hinner : ∀ t b, t < 2 ^ 64 → inner t b = (t + g b) % 2 ^ 64) :
    ∀ (l : List β) (t0 : Nat), t0 < 2 ^ 64 →
      l.foldl inner t0 = (t0 + (l.map g).sum) % 2 ^ 64 := by
  intro l
  induction l with
  | nil =>
    intro t0 ht0
    simp only [List.foldl_nil, List.map_nil, List.sum_nil, Nat.add_zero]
    exact (Nat.mod_eq_of_lt ht0).symm
  | cons x rest ih =>
    intro t0 ht0
    simp only [List.foldl_cons, List.map_cons, List.sum_cons]
    rw [hinner t0 x ht0, ih _ (Nat.mod_lt _ (by norm_num)), Nat.mod_add_mod,
      ← Nat.add_assoc]

/-- Pulling a common factor out of a list sum. -/
theorem sum_map_mul_left' {α : Type} (l : List α) (f : α → Nat) (a : Nat) :
    (l.map (fun x => a * f x)).sum = a * (l.map f).sum := by
  induction l with
  | nil => simp
  | cons x rest ih => simp [ih, Nat.mul_add]

/-- The estimator's doubly-nested per-pair sums collapse to the product
of the per-axis sums with the port count. -/
theorem est_sum_eq (mode : String) (mh : Nat) (srcs : List GoIPNet)
    (dsts : List Destination) (P : Nat) :
    (srcs.map (fun sn => (dsts.map
        (fun d => P * (estCount mode mh sn * estCount mode mh d.ipnet))).sum)).sum
      = (srcs.map (estCount mode mh)).sum *
        (dsts.map (fun d => estCount mode mh d.ipnet)).sum * P := by
  have hstep : (srcs.map (fun sn => (dsts.map
      (fun d => P * (estCount mode mh sn * estCount mode mh d.ipnet))).sum)).sum
      = (srcs.map (fun sn =>
          (P * (dsts.map (fun d => estCount mode mh d.ipnet)).sum) *
            estCount mode mh sn)).sum := by
    congr 1
    apply List.map_congr_left
    intro sn _
    have hl : (dsts.map (fun d => P * (estCount mode mh sn * estCount mode mh d.ipnet)))
        = (dsts.map (fun d => (P * estCount mode mh sn) * estCount mode mh d.ipnet)) := by
      apply List.map_congr_left
      intro d _
      ring
    rw [hl, sum_map_mul_left']
    ring
  rw [hstep, sum_map_mul_left']
  ring

set_option maxHeartbeats 1600000 in
/-- C9 (amended): for IPv4 input traffic in which no expanded axis
network is /0, the producer terminates and emits exactly
(sum of per-source host counts) x (sum of per-destination host counts) x
(number of ports) tasks, where an axis network contributes `CIDRSize`
hosts iff the expansion flag holds (`mode = expand` and
`1 < CIDRSize <= maxHosts`) and 1 host otherwise; the estimator returns
that same number reduced mod 2^64 (its `uint64` accumulator).  The two
agree exactly when the true total is below 2^64.  The original claim
fails in general: an expanded /0 axis makes the producer loop forever —
`Inc` wraps inside the network — while the estimator still returns a
count (see the counterexample). -/
theorem C9_estimator_matches_producer (tr : InputTraffic) (mode : String) (maxHosts : Nat)
    (hsrc : ∀ n ∈ tr.srcIPs, v4netB n = true)
    (hdst : ∀ d ∈ tr.dstIPs, v4netB d.ipnet = true)
    (hsterm : ∀ n ∈ tr.srcIPs, expandFlag mode maxHosts n = true → n.mask.val ≠ 0)
    (hdterm : ∀ d ∈ tr.dstIPs, expandFlag mode maxHosts d.ipnet = true →
      d.ipnet.mask.val ≠ 0) :
    ProducerCount mode maxHosts tr.srcIPs tr.dstIPs tr.ports.length
      ((tr.srcIPs.map (estCount mode maxHosts)).sum *
        (tr.dstIPs.map (fun d => estCount mode maxHosts d.ipnet)).sum * tr.ports.length) ∧
    estimateTotalTasks (some tr) mode maxHosts =
      ((tr.srcIPs.map (estCount mode maxHosts)).sum *
        (tr.dstIPs.map (fun d => estCount mode maxHosts d.ipnet)).sum * tr.ports.length)
        % 2 ^ 64 := by
  constructor
  · unfold ProducerCount
    refine ⟨tr.srcIPs.map (estCount mode maxHosts), ?_, ?_⟩
    · exact forall2_map_of_mem _ _ _ (fun n hn =>
        axisCount_estCount mode maxHosts n (hsrc n hn) (hsterm n hn))
    · right
      refine ⟨tr.dstIPs.map (fun d => estCount mode maxHosts d.ipnet), ?_, ?_⟩
      · exact forall2_map_of_mem _ _ _ (fun d hd =>
          axisCount_estCount mode maxHosts d.ipnet (hdst d hd) (hdterm d hd))
      · rfl
  · have hin1 : ∀ (sn : GoIPNet) (t : Nat), t < 2 ^ 64 →
        tr.dstIPs.foldl (fun t2 dst => tr.ports.foldl (fun t3 _ =>
          (t3 + estCount mode maxHosts sn * estCount mode maxHosts dst.ipnet % 2 ^ 64)
            % 2 ^ 64) t2) t
        = (t + (tr.dstIPs.map (fun d => tr.ports.length *
            (estCount mode maxHosts sn * estCount mode maxHosts d.ipnet))).sum) % 2 ^ 64
        := by
      intro sn t ht
      refine foldl_mod_sum _ _ ?_ tr.dstIPs t ht
      intro t2 d ht2
      exact foldl_mod_const _ tr.ports t2 ht2
    have hout : tr.srcIPs.foldl (fun total srcNet => tr.dstIPs.foldl (fun t2 dst =>
        tr.ports.foldl (fun t3 _ =>
          (t3 + estCount mode maxHosts srcNet * estCount mode maxHosts dst.ipnet % 2 ^ 64)
            % 2 ^ 64) t2) total) 0
        = (0 + (tr.srcIPs.map (fun sn => (tr.dstIPs.map (fun d => tr.ports.length *
            (estCount mode maxHosts sn * estCount mode maxHosts d.ipnet))).sum)).sum)
            % 2 ^ 64 := by
      refine foldl_mod_sum _ _ ?_ tr.srcIPs 0 (by norm_num)
      intro t sn ht
      exact hin1 sn t ht
    have hdef : estimateTotalTasks (some tr) mode maxHosts =
        tr.srcIPs.foldl (fun total srcNet => tr.dstIPs.foldl (fun t2 dst =>
          tr.ports.foldl (fun t3 _ =>
            (t3 + estCount mode maxHosts srcNet * estCount mode maxHosts dst.ipnet % 2 ^ 64)
              % 2 ^ 64) t2) total) 0 := rfl
    rw [hdef, hout, Nat.zero_add, est_sum_eq]

/-- The source network 10.0.0.0/30 (4 hosts) of the C9 witness. -/
def w9Src : GoIPNet := ⟨⟨4, 0x0a000000⟩, ⟨4, 0xfffffffc⟩⟩

/-- The destination 192.168.1.1/32 (1 host) of the C9 witness. -/
def w9Dst : Destination := ⟨⟨⟨4, 0xc0a80101⟩, ⟨4, 0xffffffff⟩⟩, []⟩

/-- The single port entry of the C9 witness. -/
def w9Port : PortInfo := ⟨"http", 80, "tcp"⟩

/-- The input traffic of the C9 witness. -/
def w9Traffic : InputTraffic := ⟨[w9Src], [w9Dst], [w9Port]⟩

/-- Witness for C9's amended theorem: in expand mode with threshold 100
the producer emits 4 x 1 x 1 = 4 tasks and the estimator returns 4. -/
theorem C9_witness :
    ProducerCount "expand" 100 [w9Src] [w9Dst] 1 4 ∧
    estimateTotalTasks (some w9Traffic) "expand" 100 = 4 := by
  have h := C9_estimator_matches_producer w9Traffic "expand" 100 (by decide) (by decide)
    (by decide) (by decide)
  have e1 : (([w9Src].map (estCount "expand" 100)).sum *
      ([w9Dst].map (fun d => estCount "expand" 100 d.ipnet)).sum *
      ([w9Port] : List PortInfo).length) = 4 := by decide
  rw [show w9Traffic.srcIPs = [w9Src] from rfl, show w9Traffic.dstIPs = [w9Dst] from rfl,
    show w9Traffic.ports = [w9Port] from rfl, e1] at h
  exact ⟨h.1, by rw [h.2]; norm_num⟩

/-- The source network 0.0.0.0/0 of the C9 counterexample. -/
def cx9Src : GoIPNet := ⟨⟨4, 0⟩, ⟨4, 0⟩⟩

/-- The destination 1.1.1.1/32 of the C9 counterexample. -/
def cx9Dst : Destination := ⟨⟨⟨4, 0x01010101⟩, ⟨4, 0xffffffff⟩⟩, []⟩

/-- The input traffic of the C9 counterexample. -/
def cx9Traffic : InputTraffic := ⟨[cx9Src], [cx9Dst], [⟨"http", 80, "tcp"⟩]⟩

/-- The expanded host loop of an IPv4 /0 network never terminates: the
network contains every 4-byte address, so `Inc`'s wrap-around keeps the
loop condition true forever. -/
theorem hostLoop_slash0_diverges (c : Nat) (ip : GoIP) (h : HostLoop cx9Src true ip c) :
    ip.len = 4 → ip.val < 2 ^ 32 → False := by
  induction h with
  | exit ip hgc =>
    intro h4 hv
    have hc : goContains cx9Src ip = true := by
      have := (v4net_contains cx9Src 32 le_rfl rfl (by decide) rfl (by decide)
        ip h4 hv).mpr ⟨by simp [cx9Src], by simp [cx9Src]; omega⟩
      exact this
    rw [hc] at hgc
    exact absurd hgc (by simp)
  | once ip hgc hexp =>
    intro _ _
    exact absurd hexp (by simp)
  | step ip c hgc hexp hrec ih =>
    intro h4 hv
    refine ih ?_ ?_
    · show (Inc ip).len = 4
      simp [Inc, h4]
    · show (Inc ip).val < 2 ^ 32
      have : (Inc ip).val = (ip.val + 1) % 2 ^ (8 * ip.len) := rfl
      rw [this, h4]
      exact Nat.mod_lt _ (by norm_num)

/-- Counterexample to C9 as stated: for an expanded 0.0.0.0/0 source
with threshold 2^32 the estimator reports 2^32 tasks, but the producer
emits no finite number of tasks before closing the channel — its source
host loop never terminates, so no total satisfies the producer's count
semantics. -/
theorem C9_counterexample :
    estimateTotalTasks (some cx9Traffic) "expand" (2 ^ 32) = 2 ^ 32 ∧
    ¬ ∃ total, ProducerCount "expand" (2 ^ 32) cx9Traffic.srcIPs cx9Traffic.dstIPs
      cx9Traffic.ports.length total := by
  constructor
  · decide
  · rintro ⟨total, scs, hf, -⟩
    have hsrcs : cx9Traffic.srcIPs = [cx9Src] := rfl
    rw [hsrcs] at hf
    cases hf with
    | cons h1 h2 =>
      have hflag : expandFlag "expand" (2 ^ 32) cx9Src = true := by decide
      have hmb : maskedBase cx9Src = ⟨4, 0⟩ := by decide
      unfold axisCount at h1
      rw [hflag, hmb] at h1
      exact hostLoop_slash0_diverges _ _ h1 rfl (by norm_num)

end STA
